import Mathlib

/-!
Shallow embedding of the `rlnc` Random Linear Network Coding library
(GF(2^8) arithmetic, Encoder, Recoder, Decoder) and verification of the
specification claims against it.
-/

set_option maxRecDepth 10000

namespace Rlnc

/-! ## GF(2^8) arithmetic kernel (src/common/gf256.rs) -/

-- table literals
def GF256_LOG_TABLE : List Nat := [
  0, 0, 25, 1, 50, 2, 26, 198, 75, 199, 27, 104, 51, 238, 223, 3, 100, 4, 224, 14, 52, 141, 129, 239,
  76, 113, 8, 200, 248, 105, 28, 193, 125, 194, 29, 181, 249, 185, 39, 106, 77, 228, 166, 114, 154, 201, 9, 120,
  101, 47, 138, 5, 33, 15, 225, 36, 18, 240, 130, 69, 53, 147, 218, 142, 150, 143, 219, 189, 54, 208, 206, 148,
  19, 92, 210, 241, 64, 70, 131, 56, 102, 221, 253, 48, 191, 6, 139, 98, 179, 37, 226, 152, 34, 136, 145, 16,
  126, 110, 72, 195, 163, 182, 30, 66, 58, 107, 40, 84, 250, 133, 61, 186, 43, 121, 10, 21, 155, 159, 94, 202,
  78, 212, 172, 229, 243, 115, 167, 87, 175, 88, 168, 80, 244, 234, 214, 116, 79, 174, 233, 213, 231, 230, 173, 232,
  44, 215, 117, 122, 235, 22, 11, 245, 89, 203, 95, 176, 156, 169, 81, 160, 127, 12, 246, 111, 23, 196, 73, 236,
  216, 67, 31, 45, 164, 118, 123, 183, 204, 187, 62, 90, 251, 96, 177, 134, 59, 82, 161, 108, 170, 85, 41, 157,
  151, 178, 135, 144, 97, 190, 220, 252, 188, 149, 207, 205, 55, 63, 91, 209, 83, 57, 132, 60, 65, 162, 109, 71,
  20, 42, 158, 93, 86, 242, 211, 171, 68, 17, 146, 217, 35, 32, 46, 137, 180, 124, 184, 38, 119, 153, 227, 165,
  103, 74, 237, 222, 197, 49, 254, 24, 13, 99, 140, 128, 192, 247, 112, 7]

def GF256_EXP_TABLE : List Nat := [
  1, 3, 5, 15, 17, 51, 85, 255, 26, 46, 114, 150, 161, 248, 19, 53, 95, 225, 56, 72, 216, 115, 149, 164,
  247, 2, 6, 10, 30, 34, 102, 170, 229, 52, 92, 228, 55, 89, 235, 38, 106, 190, 217, 112, 144, 171, 230, 49,
  83, 245, 4, 12, 20, 60, 68, 204, 79, 209, 104, 184, 211, 110, 178, 205, 76, 212, 103, 169, 224, 59, 77, 215,
  98, 166, 241, 8, 24, 40, 120, 136, 131, 158, 185, 208, 107, 189, 220, 127, 129, 152, 179, 206, 73, 219, 118, 154,
  181, 196, 87, 249, 16, 48, 80, 240, 11, 29, 39, 105, 187, 214, 97, 163, 254, 25, 43, 125, 135, 146, 173, 236,
  47, 113, 147, 174, 233, 32, 96, 160, 251, 22, 58, 78, 210, 109, 183, 194, 93, 231, 50, 86, 250, 21, 63, 65,
  195, 94, 226, 61, 71, 201, 64, 192, 91, 237, 44, 116, 156, 191, 218, 117, 159, 186, 213, 100, 172, 239, 42, 126,
  130, 157, 188, 223, 122, 142, 137, 128, 155, 182, 193, 88, 232, 35, 101, 175, 234, 37, 111, 177, 200, 67, 197, 84,
  252, 31, 33, 99, 165, 244, 7, 9, 27, 45, 119, 153, 176, 203, 70, 202, 69, 207, 74, 222, 121, 139, 134, 145,
  168, 227, 62, 66, 198, 81, 243, 14, 18, 54, 90, 238, 41, 123, 141, 140, 143, 138, 133, 148, 167, 242, 13, 23,
  57, 75, 221, 124, 132, 151, 162, 253, 28, 36, 108, 180, 199, 82, 246, 1, 3, 5, 15, 17, 51, 85, 255, 26,
  46, 114, 150, 161, 248, 19, 53, 95, 225, 56, 72, 216, 115, 149, 164, 247, 2, 6, 10, 30, 34, 102, 170, 229,
  52, 92, 228, 55, 89, 235, 38, 106, 190, 217, 112, 144, 171, 230, 49, 83, 245, 4, 12, 20, 60, 68, 204, 79,
  209, 104, 184, 211, 110, 178, 205, 76, 212, 103, 169, 224, 59, 77, 215, 98, 166, 241, 8, 24, 40, 120, 136, 131,
  158, 185, 208, 107, 189, 220, 127, 129, 152, 179, 206, 73, 219, 118, 154, 181, 196, 87, 249, 16, 48, 80, 240, 11,
  29, 39, 105, 187, 214, 97, 163, 254, 25, 43, 125, 135, 146, 173, 236, 47, 113, 147, 174, 233, 32, 96, 160, 251,
  22, 58, 78, 210, 109, 183, 194, 93, 231, 50, 86, 250, 21, 63, 65, 195, 94, 226, 61, 71, 201, 64, 192, 91,
  237, 44, 116, 156, 191, 218, 117, 159, 186, 213, 100, 172, 239, 42, 126, 130, 157, 188, 223, 122, 142, 137, 128, 155,
  182, 193, 88, 232, 35, 101, 175, 234, 37, 111, 177, 200, 67, 197, 84, 252, 31, 33, 99, 165, 244, 7, 9, 27,
  45, 119, 153, 176, 203, 70, 202, 69, 207, 74, 222, 121, 139, 134, 145, 168, 227, 62, 66, 198, 81, 243, 14, 18,
  54, 90, 238, 41, 123, 141, 140, 143, 138, 133, 148, 167, 242, 13, 23, 57, 75, 221, 124, 132, 151, 162, 253, 28,
  36, 108, 180, 199, 82, 246]

def LOG_PACKED : Nat := 939374623831894136699086600277250597547650664638770418422125146541797353646788332867483593573384618611044815625336497665827114626705134492515730415652478061620339993830966980270842846318821775850471098591710629241171812800746666233448222972174585295916389942636813666312872914849454985560152530477328703759683306625234997237483834721220409437442253146756845415190424543171129629468776480674528486868811725071010351012234056630775688111116293610821126543142160426617079940511630006820862697466582575257349116925728488930366609138264019883664906661504235885380294353134295748489096855100647154935187045898006656778240

def EXP_PACKED : Nat := 15333734640980062507414789825641565636302735418176859231533166052922927607481323607970318237375291650882515217194599523775671079549650168212824412956805034168263184328144078085741951343666915943044745592046023278413000228697187189424819689569716235662892360434187054327446287166656307583769170723747616251967521976364091355945179739657543646262545389381065335546725209926786394861062866870065089504186201537621786494376629382468940016267031713286008930348682439294569523701648480791976914184766566133309885445311830400252782846746419172755836401457920986687414822883811297489258008820719094024410962561261493473934018146909775240912475321789063867152806431900347318866209924199623271292433861809292822859728874266177092502232241966695092723982153390306815440435705345861529962584445308679409559773331862712241435213977676565016257000996819143799044703524200450662794730726039629349269185159391030018691205180885666225121945010261464530563353438525081876071649191349015501786271031508037034114868361667482189421441894049945600792954363459439830767433481885910347307174664692855501303210499002116688146428402721424319152601077282324648632212870489342971813997692364894855091312577628172372023463356958036043198677248822225997726465


/-- Packed little-endian byte encoding of a list, entry `i` in bits `[8i, 8i+8)`. -/
def packBytes (l : List Nat) : Nat := l.foldr (fun b acc => b + (acc <<< 8)) 0

theorem log_packed_eq : LOG_PACKED = packBytes GF256_LOG_TABLE := by decide

theorem exp_packed_eq : EXP_PACKED = packBytes GF256_EXP_TABLE := by decide


/-- Fast lookup into the packed log table. -/
def logP (a : Nat) : Nat := Nat.land (Nat.shiftRight LOG_PACKED (Nat.mul 8 a)) 255

/-- Fast lookup into the packed exp table. -/
def expP (i : Nat) : Nat := Nat.land (Nat.shiftRight EXP_PACKED (Nat.mul 8 i)) 255

theorem logP_eq_table : ∀ a < 256, GF256_LOG_TABLE.getD a 0 = logP a := by decide

theorem expP_eq_table : ∀ i < 510, GF256_EXP_TABLE.getD i 0 = expP i := by decide

/-- Source `Gf256::mul_const`: table-based GF(2^8) multiplication with zero short-circuit. -/
def mulConst (a b : Nat) : Nat :=
  if a = 0 ∨ b = 0 then 0
  else GF256_EXP_TABLE.getD (GF256_LOG_TABLE.getD a 0 + GF256_LOG_TABLE.getD b 0) 0

/-- Source `Gf256::inv`: multiplicative inverse, `none` for the zero element. -/
def gfInv (a : Nat) : Option Nat :=
  if a = 0 then none
  else some (GF256_EXP_TABLE.getD (255 - GF256_LOG_TABLE.getD a 0) 0)

/-- Source `Gf256::div` (the `Div` impl): `a * inv b`, `none` when `b = 0`. -/
def gfDiv (a b : Nat) : Option Nat :=
  (gfInv b).map (fun bInv => mulConst a bInv)

/-- Packed-table counterpart of `mulConst`, for fast kernel evaluation. -/
def mulP (a b : Nat) : Nat :=
  if a = 0 ∨ b = 0 then 0 else expP (Nat.add (logP a) (logP b))

theorem logP_lt : ∀ a < 256, logP a < 255 := by decide

theorem expP_pos_lt : ∀ i < 510, 0 < expP i ∧ expP i < 256 := by decide

theorem mulConst_eq_mulP {a b : Nat} (ha : a < 256) (hb : b < 256) :
    mulConst a b = mulP a b := by
  unfold mulConst mulP
  by_cases h : a = 0 ∨ b = 0
  · simp [h]
  · push_neg at h
    rw [if_neg (by simp [h.1, h.2]), if_neg (by simp [h.1, h.2]),
      logP_eq_table a ha, logP_eq_table b hb]
    exact expP_eq_table _ (by have h1 := logP_lt a ha; have h2 := logP_lt b hb; omega)

/-! ### Reference definition: carryless multiplication, then reduction mod x^8+x^4+x^3+x+1.

The spec names the reference as carryless (XOR) polynomial multiplication of the two
bytes followed by reduction modulo the irreducible polynomial 0x11B.  `clMul` XORs
together `b` shifted by each set bit of `a` (bit i contributes `bit_i(a) * (b <<< i)`),
and `gfReduce` clears the product bits 15 down to 8 by XORing in the shifted modulus. -/

/-- Carryless (XOR-accumulating) product of two bytes. -/
def clMul (a b : Nat) : Nat :=
  Nat.xor (Nat.mul (Nat.land (Nat.shiftRight a 0) 1) (Nat.shiftLeft b 0))
  (Nat.xor (Nat.mul (Nat.land (Nat.shiftRight a 1) 1) (Nat.shiftLeft b 1))
  (Nat.xor (Nat.mul (Nat.land (Nat.shiftRight a 2) 1) (Nat.shiftLeft b 2))
  (Nat.xor (Nat.mul (Nat.land (Nat.shiftRight a 3) 1) (Nat.shiftLeft b 3))
  (Nat.xor (Nat.mul (Nat.land (Nat.shiftRight a 4) 1) (Nat.shiftLeft b 4))
  (Nat.xor (Nat.mul (Nat.land (Nat.shiftRight a 5) 1) (Nat.shiftLeft b 5))
  (Nat.xor (Nat.mul (Nat.land (Nat.shiftRight a 6) 1) (Nat.shiftLeft b 6))
           (Nat.mul (Nat.land (Nat.shiftRight a 7) 1) (Nat.shiftLeft b 7))))))))

/-- One reduction step: if bit `i` (for `i ≥ 8`) is set, XOR in the modulus 0x11B shifted left. -/
def reduceStep (i x : Nat) : Nat :=
  Nat.xor x (Nat.mul (Nat.land (Nat.shiftRight x i) 1) (Nat.shiftLeft 283 (i - 8)))

/-- Reduce a carryless product (< 2^16) modulo the irreducible polynomial 0x11B. -/
def gfReduce (x : Nat) : Nat :=
  reduceStep 8 (reduceStep 9 (reduceStep 10 (reduceStep 11 (reduceStep 12
    (reduceStep 13 (reduceStep 14 (reduceStep 15 x)))))))

/-- Reference GF(2^8) multiplication: carryless multiply, then reduce by 0x11B. -/
def gfRefMul (a b : Nat) : Nat := gfReduce (clMul a b)

/-- An exhaustive comparison of the table multiplication against the reference. -/
def checkMulAgainstRef : Bool :=
  (List.range 256).all fun a => (List.range 256).all fun b => mulP a b == gfRefMul a b

set_option maxHeartbeats 16000000 in
theorem checkMulAgainstRef_true : checkMulAgainstRef = true := by decide

theorem mulP_eq_refMul : ∀ a < 256, ∀ b < 256, mulP a b = gfRefMul a b := by
  intro a ha b hb
  have h := checkMulAgainstRef_true
  unfold checkMulAgainstRef at h
  rw [List.all_eq_true] at h
  have ha2 := h a (List.mem_range.mpr ha)
  rw [List.all_eq_true] at ha2
  exact eq_of_beq (ha2 b (List.mem_range.mpr hb))

/-! ### Derived algebraic facts about the table-based multiplication -/

theorem natXor_eq (a b : Nat) : Nat.xor a b = a ^^^ b := rfl

theorem natMul_eq (a b : Nat) : Nat.mul a b = a * b := rfl

theorem natLand_eq (a b : Nat) : Nat.land a b = a &&& b := rfl

theorem natShiftLeft_eq (a b : Nat) : Nat.shiftLeft a b = a <<< b := rfl

theorem natShiftRight_eq (a b : Nat) : Nat.shiftRight a b = a >>> b := rfl

theorem natAdd_eq (a b : Nat) : Nat.add a b = a + b := rfl

theorem mulConst_eq_refMul {a b : Nat} (ha : a < 256) (hb : b < 256) :
    mulConst a b = gfRefMul a b := by
  rw [mulConst_eq_mulP ha hb]; exact mulP_eq_refMul a ha b hb

theorem mulConst_comm (a b : Nat) : mulConst a b = mulConst b a := by
  unfold mulConst
  by_cases h : a = 0 ∨ b = 0
  · rw [if_pos h, if_pos (Or.symm h)]
  · rw [if_neg h, if_neg (fun hc => h (Or.symm hc)), Nat.add_comm]

theorem mulConst_zero (a : Nat) : mulConst a 0 = 0 := by simp [mulConst]

theorem zero_mulConst (b : Nat) : mulConst 0 b = 0 := by simp [mulConst]

theorem expP_le (i : Nat) : expP i ≤ 255 := by
  unfold expP; rw [natLand_eq]; exact Nat.and_le_right

theorem mulP_lt (a b : Nat) : mulP a b < 256 := by
  unfold mulP
  by_cases h : a = 0 ∨ b = 0
  · rw [if_pos h]; omega
  · rw [if_neg h]; have := expP_le (Nat.add (logP a) (logP b)); omega

theorem mulConst_lt {a b : Nat} (ha : a < 256) (hb : b < 256) : mulConst a b < 256 := by
  rw [mulConst_eq_mulP ha hb]; exact mulP_lt a b

theorem expP_logP : ∀ a < 256, a ≠ 0 → expP (logP a) = a := by decide

theorem logP_expP : ∀ i < 255, logP (expP i) = i := by decide

theorem expP_period : ∀ i < 255, expP (i + 255) = expP i := by decide

theorem logP_one : logP 1 = 0 := by decide

theorem mulConst_one {a : Nat} (ha : a < 256) : mulConst a 1 = a := by
  rw [mulConst_eq_mulP ha (by omega)]
  unfold mulP
  by_cases h : a = 0
  · simp [h]
  · rw [if_neg (by simp [h]), logP_one, natAdd_eq, Nat.add_zero]
    exact expP_logP a ha h

theorem one_mulConst {b : Nat} (hb : b < 256) : mulConst 1 b = b := by
  rw [mulConst_comm]; exact mulConst_one hb

theorem expP_mod255 {s : Nat} (hs : s < 510) : expP s = expP (s % 255) := by
  by_cases h : s < 255
  · rw [Nat.mod_eq_of_lt h]
  · have h1 : s - 255 < 255 := by omega
    have h2 : s % 255 = s - 255 := by omega
    rw [show s = (s - 255) + 255 by omega, expP_period _ h1]
    congr 1
    omega

theorem mulP_ne_zero {a b : Nat} (ha : a < 256) (hb : b < 256) (ha0 : a ≠ 0) (hb0 : b ≠ 0) :
    mulP a b ≠ 0 := by
  unfold mulP
  rw [if_neg (by simp [ha0, hb0]), natAdd_eq]
  have h1 := logP_lt a ha
  have h2 := logP_lt b hb
  have := (expP_pos_lt (logP a + logP b) (by omega)).1
  omega

theorem logP_mulP {a b : Nat} (ha : a < 256) (hb : b < 256) (ha0 : a ≠ 0) (hb0 : b ≠ 0) :
    logP (mulP a b) = (logP a + logP b) % 255 := by
  unfold mulP
  rw [if_neg (by simp [ha0, hb0]), natAdd_eq]
  have h1 := logP_lt a ha
  have h2 := logP_lt b hb
  rw [expP_mod255 (by omega)]
  exact logP_expP _ (Nat.mod_lt _ (by omega))

theorem mulP_assoc {a b c : Nat} (ha : a < 256) (hb : b < 256) (hc : c < 256) :
    mulP (mulP a b) c = mulP a (mulP b c) := by
  by_cases ha0 : a = 0
  · simp [ha0, mulP]
  by_cases hb0 : b = 0
  · simp [hb0, mulP]
  by_cases hc0 : c = 0
  · simp [hc0, mulP]
  have hab := mulP_lt a b
  have hbc := mulP_lt b c
  have hab0 := mulP_ne_zero ha hb ha0 hb0
  have hbc0 := mulP_ne_zero hb hc hb0 hc0
  have h1 := logP_lt a ha
  have h2 := logP_lt b hb
  have h3 := logP_lt c hc
  conv_lhs => rw [mulP, if_neg (by simp [hab0, hc0]), natAdd_eq, logP_mulP ha hb ha0 hb0]
  conv_rhs => rw [mulP, if_neg (by simp [ha0, hbc0]), natAdd_eq, logP_mulP hb hc hb0 hc0]
  have hL : (logP a + logP b) % 255 + logP c < 510 := by
    have := Nat.mod_lt (logP a + logP b) (show 0 < 255 by omega); omega
  have hR : logP a + (logP b + logP c) % 255 < 510 := by
    have := Nat.mod_lt (logP b + logP c) (show 0 < 255 by omega); omega
  conv_lhs => rw [expP_mod255 hL]
  conv_rhs => rw [expP_mod255 hR]
  congr 1
  have e1 : ((logP a + logP b) % 255 + logP c) % 255 = ((logP a + logP b) + logP c) % 255 :=
    (Nat.mod_modEq _ 255).add_right _
  have e2 : (logP a + (logP b + logP c) % 255) % 255 = (logP a + (logP b + logP c)) % 255 :=
    (Nat.mod_modEq _ 255).add_left _
  rw [e1, e2, Nat.add_assoc]

theorem mulConst_assoc {a b c : Nat} (ha : a < 256) (hb : b < 256) (hc : c < 256) :
    mulConst (mulConst a b) c = mulConst a (mulConst b c) := by
  rw [mulConst_eq_mulP ha hb, mulConst_eq_mulP (mulP_lt a b) hc,
    mulConst_eq_mulP hb hc, mulConst_eq_mulP ha (mulP_lt b c)]
  exact mulP_assoc ha hb hc

/-! ### XOR-linearity of the reference multiplication, hence distributivity -/

theorem shiftLeft_xor_distrib (x y i : Nat) : (x ^^^ y) <<< i = (x <<< i) ^^^ (y <<< i) := by
  apply Nat.eq_of_testBit_eq
  intro j
  simp [Nat.testBit_shiftLeft, Nat.testBit_xor, Bool.and_xor_distrib_left]

theorem shiftRight_xor_distrib (x y i : Nat) : (x ^^^ y) >>> i = (x >>> i) ^^^ (y >>> i) := by
  apply Nat.eq_of_testBit_eq
  intro j
  simp [Nat.testBit_shiftRight, Nat.testBit_xor]

theorem bit_le_one (x i : Nat) : (x >>> i) &&& 1 ≤ 1 := Nat.and_le_right

theorem bitMul_xor {t : Nat} (ht : t ≤ 1) (x y : Nat) : t * (x ^^^ y) = t * x ^^^ t * y := by
  interval_cases t
  · simp
  · simp

theorem bitXorMul {t u : Nat} (ht : t ≤ 1) (hu : u ≤ 1) (c : Nat) :
    (t ^^^ u) * c = (t * c) ^^^ (u * c) := by
  interval_cases t <;> interval_cases u <;> simp

theorem bitShiftMul_xor (a i x y : Nat) :
    ((a >>> i) &&& 1) * (x ^^^ y) = ((a >>> i) &&& 1) * x ^^^ ((a >>> i) &&& 1) * y :=
  bitMul_xor (bit_le_one a i) x y

theorem xorInterchange (a b c d : Nat) : (a ^^^ b) ^^^ (c ^^^ d) = (a ^^^ c) ^^^ (b ^^^ d) := by
  rw [Nat.xor_assoc, Nat.xor_assoc]
  congr 1
  rw [← Nat.xor_assoc, ← Nat.xor_assoc, Nat.xor_comm b c]

theorem xor_left_comm (a b c : Nat) : a ^^^ (b ^^^ c) = b ^^^ (a ^^^ c) := by
  rw [← Nat.xor_assoc, Nat.xor_comm a b, Nat.xor_assoc]

theorem clMul_xor_right (a b c : Nat) : clMul a (b ^^^ c) = clMul a b ^^^ clMul a c := by
  unfold clMul
  simp only [natXor_eq, natMul_eq, natLand_eq, natShiftLeft_eq, natShiftRight_eq]
  simp only [shiftLeft_xor_distrib, bitShiftMul_xor]
  generalize ((a >>> 0) &&& 1) * (b <<< 0) = u0
  generalize ((a >>> 1) &&& 1) * (b <<< 1) = u1
  generalize ((a >>> 2) &&& 1) * (b <<< 2) = u2
  generalize ((a >>> 3) &&& 1) * (b <<< 3) = u3
  generalize ((a >>> 4) &&& 1) * (b <<< 4) = u4
  generalize ((a >>> 5) &&& 1) * (b <<< 5) = u5
  generalize ((a >>> 6) &&& 1) * (b <<< 6) = u6
  generalize ((a >>> 7) &&& 1) * (b <<< 7) = u7
  generalize ((a >>> 0) &&& 1) * (c <<< 0) = v0
  generalize ((a >>> 1) &&& 1) * (c <<< 1) = v1
  generalize ((a >>> 2) &&& 1) * (c <<< 2) = v2
  generalize ((a >>> 3) &&& 1) * (c <<< 3) = v3
  generalize ((a >>> 4) &&& 1) * (c <<< 4) = v4
  generalize ((a >>> 5) &&& 1) * (c <<< 5) = v5
  generalize ((a >>> 6) &&& 1) * (c <<< 6) = v6
  generalize ((a >>> 7) &&& 1) * (c <<< 7) = v7
  simp [Nat.xor_comm, xor_left_comm, Nat.xor_assoc]

theorem reduceStep_xor (i x y : Nat) :
    reduceStep i (x ^^^ y) = reduceStep i x ^^^ reduceStep i y := by
  unfold reduceStep
  simp only [natXor_eq, natMul_eq, natLand_eq, natShiftLeft_eq, natShiftRight_eq]
  rw [shiftRight_xor_distrib, Nat.and_xor_distrib_right,
    bitXorMul (bit_le_one x i) (bit_le_one y i)]
  exact xorInterchange _ _ _ _

theorem gfReduce_xor (x y : Nat) : gfReduce (x ^^^ y) = gfReduce x ^^^ gfReduce y := by
  unfold gfReduce
  rw [reduceStep_xor 15, reduceStep_xor 14, reduceStep_xor 13, reduceStep_xor 12,
    reduceStep_xor 11, reduceStep_xor 10, reduceStep_xor 9, reduceStep_xor 8]

theorem gfRefMul_xor_right (a b c : Nat) :
    gfRefMul a (b ^^^ c) = gfRefMul a b ^^^ gfRefMul a c := by
  unfold gfRefMul
  rw [clMul_xor_right, gfReduce_xor]

theorem xor_lt_256 {a b : Nat} (ha : a < 256) (hb : b < 256) : a ^^^ b < 256 := by
  have h256 : (256 : Nat) = 2 ^ 8 := by norm_num
  rw [h256] at ha hb ⊢
  exact Nat.xor_lt_two_pow ha hb

theorem mulConst_xor_right {a b c : Nat} (ha : a < 256) (hb : b < 256) (hc : c < 256) :
    mulConst a (b ^^^ c) = mulConst a b ^^^ mulConst a c := by
  rw [mulConst_eq_refMul ha (xor_lt_256 hb hc), mulConst_eq_refMul ha hb,
    mulConst_eq_refMul ha hc, gfRefMul_xor_right]

theorem mulConst_xor_left {a b c : Nat} (ha : a < 256) (hb : b < 256) (hc : c < 256) :
    mulConst (a ^^^ b) c = mulConst a c ^^^ mulConst b c := by
  rw [mulConst_comm, mulConst_xor_right hc ha hb, mulConst_comm c a, mulConst_comm c b]

/-! ## Error taxonomy and wire constants -/

/-- Modelled from the spec: the error taxonomy of section 7 (the source file
`errors.rs` is not part of the provided sources; every variant below is the
one named by the in-scope sources and the spec table). -/
inductive RLNCError where
  | DataLengthZero
  | PieceCountZero
  | PieceLengthZero
  | DataLengthMismatch
  | CodingVectorLengthMismatch
  | InvalidOutputBuffer
  | PieceNotUseful
  | ReceivedAllPieces
  | InvalidPieceLength
  | NotAllPiecesReceivedYet
  | InvalidDecodedDataFormat
  | NotEnoughPiecesToRecode
  | PieceLengthTooShort
deriving DecidableEq, Repr

/-- Modelled from the spec: `BOUNDARY_MARKER = 0x01` (section 3; the source file
`consts.rs` is not part of the provided sources). -/
def BOUNDARY_MARKER : Nat := 1

/-! ## Vector kernels (src/common/simd/mod.rs, scalar fallback semantics) -/

/-- Source `gf256_inplace_add_vectors`: pointwise XOR over the zipped prefix;
entries of `dst` beyond the length of `src` are left unchanged. -/
def gf256_inplace_add_vectors (dst src : List Nat) : List Nat :=
  List.zipWith (fun a b => a ^^^ b) dst src ++ dst.drop src.length

/-- Source `gf256_mul_vec_by_scalar_then_add_into_vec`: `dst[i] ^= mul(src[i], scalar)`
with the short-circuits for an empty destination, scalar 0 and scalar 1. -/
def gf256_mul_vec_by_scalar_then_add_into_vec (dst src : List Nat) (scalar : Nat) : List Nat :=
  if dst.isEmpty then dst
  else if scalar = 0 then dst
  else if scalar = 1 then gf256_inplace_add_vectors dst src
  else List.zipWith (fun a b => a ^^^ mulConst b scalar) dst src ++ dst.drop src.length

/-- Structural worker for `chunksExact`; the fuel only bounds the recursion depth
(each step consumes at least one element, so `l.length` steps always suffice). -/
def chunksExactAux : Nat → Nat → List Nat → List (List Nat)
  | 0, _, _ => []
  | fuel + 1, n, l =>
    if n = 0 ∨ l.length < n then []
    else l.take n :: chunksExactAux fuel n (l.drop n)

/-- Rust `slice::chunks_exact`: the consecutive length-`n` chunks, trailing rest dropped. -/
def chunksExact (n : Nat) (l : List Nat) : List (List Nat) :=
  chunksExactAux l.length n l

/-! ## Encoder (src/full/encoder.rs) -/

structure Encoder where
  data : List Nat
  piece_count : Nat
  piece_byte_len : Nat
deriving DecidableEq, Repr

/-- Source `Encoder::without_padding`. -/
def Encoder.without_padding (data : List Nat) (piece_count : Nat) : Except RLNCError Encoder :=
  if data.isEmpty then .error .DataLengthZero
  else if piece_count = 0 then .error .PieceCountZero
  else
    let in_data_len := data.length
    let piece_byte_len := in_data_len / piece_count
    let computed_total_data_len := piece_byte_len * piece_count
    if computed_total_data_len ≠ in_data_len then .error .DataLengthMismatch
    else .ok ⟨data, piece_count, piece_byte_len⟩

/-- Rust `Vec::resize(n, v)`: truncate or extend with copies of `v` to length `n`. -/
def listResize (l : List Nat) (n : Nat) (v : Nat) : List Nat :=
  if n ≤ l.length then l.take n else l ++ List.replicate (n - l.length) v

/-- Source `Encoder::new`: `piece_byte_len = (len + 1).div_ceil(piece_count)`, zero-extend
to `piece_count * piece_byte_len` and write the boundary marker at offset `len`. -/
def Encoder.new (data : List Nat) (piece_count : Nat) : Except RLNCError Encoder :=
  if data.isEmpty then .error .DataLengthZero
  else if piece_count = 0 then .error .PieceCountZero
  else
    let in_data_len := data.length
    let boundary_marker_len := 1
    let piece_byte_len := (in_data_len + boundary_marker_len + piece_count - 1) / piece_count
    let padded_data_len := piece_count * piece_byte_len
    let resized := listResize data padded_data_len 0
    .ok ⟨resized.set in_data_len BOUNDARY_MARKER, piece_count, piece_byte_len⟩

/-- Source `Encoder::code_with_coding_vector` (sequential semantics): zero the output,
then fold the fused multiply-add of each piece scaled by its coefficient. -/
def Encoder.code_with_coding_vector (e : Encoder) (coding_vector coded_data : List Nat) :
    Except RLNCError (List Nat) :=
  if coding_vector.length ≠ e.piece_count then .error .CodingVectorLengthMismatch
  else if coded_data.length ≠ e.piece_byte_len then .error .InvalidOutputBuffer
  else .ok (((chunksExact e.piece_byte_len e.data).zip coding_vector).foldl
    (fun acc p => gf256_mul_vec_by_scalar_then_add_into_vec acc p.1 p.2)
    (List.replicate coded_data.length 0))

/-! ## Recoder (src/full/recoder.rs) -/

structure Recoder where
  coding_vectors : List Nat
  encoder : Encoder
  num_pieces_received : Nat
  full_coded_piece_byte_len : Nat
  num_pieces_coded_together : Nat
deriving DecidableEq, Repr

/-- Source `Recoder::new`.  The `unwrap_unchecked` on the inner
`Encoder::without_padding` is modelled by `Option`: `none` marks the branch where
the unchecked unwrap consumes an `Err`, which in Rust is undefined behavior. -/
def Recoder.new (data : List Nat) (full_coded_piece_byte_len num_pieces_coded_together : Nat) :
    Option (Except RLNCError Recoder) :=
  if data.isEmpty then some (.error .NotEnoughPiecesToRecode)
  else if full_coded_piece_byte_len = 0 then some (.error .PieceLengthZero)
  else if num_pieces_coded_together = 0 then some (.error .PieceCountZero)
  else if full_coded_piece_byte_len ≤ num_pieces_coded_together then
    some (.error .PieceLengthTooShort)
  else
    let num_pieces_received := data.length / full_coded_piece_byte_len
    let chunks := chunksExact full_coded_piece_byte_len data
    let coding_vectors := chunks.flatMap (fun c => c.take num_pieces_coded_together)
    let coded_pieces := chunks.flatMap (fun c => c.drop num_pieces_coded_together)
    match Encoder.without_padding coded_pieces num_pieces_received with
    | .error _ => none
    | .ok encoder => some (.ok ⟨coding_vectors, encoder, num_pieces_received,
        full_coded_piece_byte_len, num_pieces_coded_together⟩)

/-- Source `Recoder::recode_with_buf`.  The RNG is modelled by passing the sampled
`random_recoding_vector` explicitly; the output buffer enters only through its
length.  The two inner `unwrap_unchecked` are modelled by `Option` as above. -/
def Recoder.recode_with_buf (r : Recoder) (random_recoding_vector : List Nat)
    (out_len : Nat) : Option (Except RLNCError (List Nat)) :=
  if out_len ≠ r.full_coded_piece_byte_len then some (.error .InvalidOutputBuffer)
  else
    let computed_coding_vector := (List.range r.num_pieces_coded_together).map
      (fun coeff_idx =>
        ((List.range random_recoding_vector.length).zip random_recoding_vector).foldl
          (fun acc p =>
            acc ^^^ mulConst p.2
              (r.coding_vectors.getD (p.1 * r.num_pieces_coded_together + coeff_idx) 0))
          0)
    match r.encoder.code_with_coding_vector random_recoding_vector
        (List.replicate (r.full_coded_piece_byte_len - r.num_pieces_coded_together) 0) with
    | .error _ => none
    | .ok recoded_data => some (.ok (computed_coding_vector ++ recoded_data))

/-! ## Decoder (src/full/decoder.rs) -/

structure Decoder where
  data : List Nat
  piece_byte_len : Nat
  required_piece_count : Nat
  received_piece_count : Nat
  useful_piece_count : Nat
deriving DecidableEq, Repr

/-- Source `Decoder::new`. -/
def Decoder.new (piece_byte_len required_piece_count : Nat) : Except RLNCError Decoder :=
  if piece_byte_len = 0 then .error .PieceLengthZero
  else if required_piece_count = 0 then .error .PieceCountZero
  else .ok ⟨[], piece_byte_len, required_piece_count, 0, 0⟩

/-- Row stride of the flat matrix buffer. -/
def Decoder.cols (s : Decoder) : Nat := s.required_piece_count + s.piece_byte_len

/-- Source `Decoder::get`: entry at row `r`, column `c` of the flat buffer. -/
def Decoder.get (s : Decoder) (r c : Nat) : Nat := s.data.getD (r * s.cols + c) 0

/-- Source `Decoder::set`. -/
def Decoder.set (s : Decoder) (r c v : Nat) : Decoder :=
  { s with data := s.data.set (r * s.cols + c) v }

/-- Rust `Vec::swap` of two positions. -/
def listSwap (l : List Nat) (i j : Nat) : List Nat :=
  let x := l.getD i 0
  let y := l.getD j 0
  (l.set i y).set j x

/-- Source `Decoder::swap_rows`: element-wise swap across all columns. -/
def Decoder.swap_rows (s : Decoder) (row1 row2 : Nat) : Decoder :=
  (List.range s.cols).foldl
    (fun t cidx => { t with data := listSwap t.data (row1 * t.cols + cidx) (row2 * t.cols + cidx) })
    s

/-- Row update shared by both elimination passes: with `q = M[j][i] / M[i][i]`,
set `M[j][k] += M[i][k] * q` for `k ∈ [i, cols)`. -/
def Decoder.elimRowFrom (s : Decoder) (i j : Nat) : Decoder :=
  let quotient := (gfDiv (s.get j i) (s.get i i)).getD 0
  (List.range' i (s.cols - i)).foldl
    (fun t k => t.set j k (t.get j k ^^^ mulConst (t.get i k) quotient)) s

/-- The pivot search of `clean_forward`: first row strictly below `i` whose entry in
column `i` is nonzero. -/
def Decoder.findPivotRow (s : Decoder) (i rows : Nat) : Option Nat :=
  (List.range' (i + 1) (rows - (i + 1))).find? (fun r => s.get r i != 0)

/-- The inner `j`-loop of `clean_forward`: eliminate column `i` in all rows below `i`. -/
def Decoder.elimBelow (s : Decoder) (rows i : Nat) : Decoder :=
  (List.range' (i + 1) (rows - (i + 1))).foldl
    (fun t j => if t.get j i = 0 then t else t.elimRowFrom i j) s

/-- One step of `clean_forward` for pivot position `i`. -/
def Decoder.forwardStep (s : Decoder) (rows i : Nat) : Decoder :=
  if s.get i i ≠ 0 then s.elimBelow rows i
  else
    match s.findPivotRow i rows with
    | none => s
    | some p => (s.swap_rows i p).elimBelow rows i

/-- Source `Decoder::clean_forward`. -/
def Decoder.clean_forward (s : Decoder) : Decoder :=
  let rows := s.useful_piece_count
  (List.range (min rows s.cols)).foldl (fun t i => t.forwardStep rows i) s

/-- One step of `clean_backward` for pivot position `i`: eliminate above, then
normalize the pivot row. -/
def Decoder.backStep (s : Decoder) (i : Nat) : Decoder :=
  if s.get i i = 0 then s
  else
    let s1 := (List.range i).foldl
      (fun t j => if t.get j i = 0 then t else t.elimRowFrom i j) s
    if s1.get i i = 1 then s1
    else
      let inv := (gfInv (s1.get i i)).getD 0
      let s2 := s1.set i i 1
      (List.range' (i + 1) (s1.cols - (i + 1))).foldl
        (fun t j => if t.get i j = 0 then t else t.set i j (mulConst (t.get i j) inv)) s2

/-- Source `Decoder::clean_backward`: pivots walked from high to low. -/
def Decoder.clean_backward (s : Decoder) : Decoder :=
  let rows := s.useful_piece_count
  ((List.range (min rows s.cols)).reverse).foldl (fun t i => t.backStep i) s

/-- The while-loop of `remove_zero_rows` acting on the raw buffer: `rows` and `i`
evolve exactly as in the source; `copy_within` shifts the tail up one stride.
The structural fuel only bounds the recursion depth (each step decreases
`rows - i`, so `rows` steps always suffice). -/
def Decoder.rzrAux (s : Decoder) : Nat → List Nat → Nat → Nat → List Nat × Nat
  | 0, data, rows, _ => (data, rows)
  | fuel + 1, data, rows, i =>
    if i < rows then
      let isNonzeroRow :=
        (List.range s.required_piece_count).any (fun cidx => data.getD (i * s.cols + cidx) 0 != 0)
      if isNonzeroRow then s.rzrAux fuel data rows (i + 1)
      else
        let startRemove := i * s.cols
        let startNext := (i + 1) * s.cols
        let endUseful := s.useful_piece_count * s.cols
        let data2 :=
          if startNext < endUseful then
            data.take startRemove ++ (data.drop startNext).take (endUseful - startNext)
              ++ data.drop (startRemove + (endUseful - startNext))
          else data
        s.rzrAux fuel data2 (rows - 1) i
    else (data, rows)

/-- Source `Decoder::remove_zero_rows`: drop rows whose coefficient columns are all
zero, truncate the buffer, and store the new row count in `useful_piece_count`. -/
def Decoder.remove_zero_rows (s : Decoder) : Decoder :=
  let res := s.rzrAux s.useful_piece_count s.data s.useful_piece_count 0
  { s with data := res.1.take (res.2 * s.cols), useful_piece_count := res.2 }

/-- Source `Decoder::rref`. -/
def Decoder.rref (s : Decoder) : Decoder :=
  s.clean_forward.clean_backward.remove_zero_rows

/-- Source `Decoder::rank`. -/
def Decoder.rank (s : Decoder) : Nat := s.useful_piece_count

/-- Source `Decoder::is_already_decoded`. -/
def Decoder.is_already_decoded (s : Decoder) : Bool := s.rank == s.required_piece_count

/-- Source `Decoder::get_full_coded_piece_byte_len`. -/
def Decoder.get_full_coded_piece_byte_len (s : Decoder) : Nat :=
  s.required_piece_count + s.piece_byte_len

/-- Source `Decoder::decode`: returns the result together with the post-call state. -/
def Decoder.decode (s : Decoder) (full_coded_piece : List Nat) :
    Except RLNCError Unit × Decoder :=
  if s.is_already_decoded then (.error .ReceivedAllPieces, s)
  else if full_coded_piece.length ≠ s.get_full_coded_piece_byte_len then
    (.error .InvalidPieceLength, s)
  else
    let rank_before := s.rank
    let s1 : Decoder :=
      { s with data := s.data ++ full_coded_piece,
               received_piece_count := s.received_piece_count + 1,
               useful_piece_count := s.useful_piece_count + 1 }
    let s2 := s1.rref
    if rank_before = s2.rank then (.error .PieceNotUseful, s2) else (.ok (), s2)

/-- The payload concatenation built by `get_decoded_data`: the tail (columns
`k ..`) of every row of the matrix, in row order. -/
def Decoder.payloadConcat (s : Decoder) : List Nat :=
  (chunksExact (s.required_piece_count + s.piece_byte_len) s.data).foldl
    (fun acc c => acc ++ c.drop s.required_piece_count) []

/-- Source `Decoder::get_decoded_data`: concatenate the payload tails of all rows,
then locate the boundary marker scanning from the end (`iter().rev().position`
with `unwrap_or(last_index)`). -/
def Decoder.get_decoded_data (s : Decoder) : Except RLNCError (List Nat) :=
  if ¬ s.is_already_decoded then .error .NotAllPiecesReceivedYet
  else
    let decoded := s.payloadConcat
    let lastIdx := decoded.length - 1
    let revIdx := (decoded.reverse.findIdx? (fun b => b == BOUNDARY_MARKER)).getD lastIdx
    let bIdx := lastIdx - revIdx
    if bIdx = 0 then .error .InvalidDecodedDataFormat
    else if (decoded.drop (bIdx + 1)).any (fun b => b != 0) then
      .error .InvalidDecodedDataFormat
    else .ok (decoded.take bIdx)

/-! ## Spec-side notions used to state the claims -/

deriving instance DecidableEq for Except

/-- GF(2^8) sum (XOR-fold) of a list of field elements. -/
def gfSum (l : List Nat) : Nat := l.foldr (fun a b => a ^^^ b) 0

/-- Index of the first nonzero coefficient entry of row `r` (searching the
`required_piece_count` leading columns only). -/
def Decoder.rowLeadIdx (s : Decoder) (r : Nat) : Option Nat :=
  (List.range s.required_piece_count).find? (fun c => s.get r c != 0)

/-- The RREF property over the coefficient columns exactly as the claim words it:
every row that is nonzero on the coefficient columns has its leading entry equal
to 1, and that leading entry is the only nonzero entry of its column. -/
def Decoder.isRREFOverCoeffCols (s : Decoder) : Bool :=
  (List.range s.useful_piece_count).all fun r =>
    match s.rowLeadIdx r with
    | none => true
    | some c =>
      (s.get r c == 1) &&
        ((List.range s.useful_piece_count).all fun r2 => (r2 == r) || (s.get r2 c == 0))

/-- Membership of `v` in the GF(2^8)-linear span of the rows `cvs`, witnessed by a
coefficient list: `v = Σ coeffs[i] · cvs[i]` (pointwise XOR of scaled rows). -/
def inSpan (cvs : List (List Nat)) (v : List Nat) : Prop :=
  ∃ coeffs : List Nat, coeffs.length = cvs.length ∧
    v = (coeffs.zip cvs).foldr
      (fun p acc => List.zipWith (fun a b => a ^^^ b) (p.2.map (fun x => mulConst p.1 x)) acc)
      (List.replicate v.length 0)

/-- Largest index of `l` holding the boundary marker, stated positionally. -/
def lastMarkerIdx (l : List Nat) : Option Nat :=
  ((List.range l.length).filter (fun i => l.getD i 0 == BOUNDARY_MARKER)).getLast?

/-! ## Claim C1 -/

/-- C1: the claim states that after every `decode` call the matrix is in RREF over
its first `k` columns and `useful_piece_count` equals the rank.  The code violates
the RREF half on the reachable input below: a fresh `Decoder::new(1, 2)` fed the
single full coded piece `[0x00, 0x02, 0x07]` answers `Ok`, stores the row
unchanged as `[0, 2, 7]` — its leading coefficient entry is 2, never normalized
to 1 because both elimination passes skip a pivot position whose diagonal entry
is zero — so the matrix is not in RREF. -/
theorem C1_rref_invariant_fails :
    Decoder.new 1 2 = .ok ⟨[], 1, 2, 0, 0⟩ ∧
    ((⟨[], 1, 2, 0, 0⟩ : Decoder).decode [0, 2, 7]).1 = .ok () ∧
    ((⟨[], 1, 2, 0, 0⟩ : Decoder).decode [0, 2, 7]).2.data = [0, 2, 7] ∧
    ((⟨[], 1, 2, 0, 0⟩ : Decoder).decode [0, 2, 7]).2.useful_piece_count = 1 ∧
    ((⟨[], 1, 2, 0, 0⟩ : Decoder).decode [0, 2, 7]).2.isRREFOverCoeffCols = false := by
  decide

/-! ## Claim C2 -/

/-- C2: the claim states `decode` fails with `PieceNotUseful` exactly when the
coding vector of the new piece lies in the span of the previously accepted useful
coding vectors.  Counterexample on the code: with `k = 3`, after accepting
`[0,0,1 | 5]`, the piece `[0,0,2 | 9]` has coding vector `[0,0,2] = 2 · [0,0,1]`
in the span of the stored row, yet `decode` answers `Ok` and counts it as useful
(the elimination never pivots on column 2 because the diagonal entries at
positions 0 and 1 are zero). -/
theorem C2_dependent_piece_accepted :
    ((⟨[], 1, 3, 0, 0⟩ : Decoder).decode [0, 0, 1, 5]).1 = .ok () ∧
    (((⟨[], 1, 3, 0, 0⟩ : Decoder).decode [0, 0, 1, 5]).2.data = [0, 0, 1, 5] ∧
     (((⟨[], 1, 3, 0, 0⟩ : Decoder).decode [0, 0, 1, 5]).2.decode [0, 0, 2, 9]).1 = .ok () ∧
     (((⟨[], 1, 3, 0, 0⟩ : Decoder).decode [0, 0, 1, 5]).2.decode [0, 0, 2, 9]).2.useful_piece_count = 2) ∧
    inSpan [[0, 0, 1]] [0, 0, 2] := by
  refine ⟨by decide, by decide, ⟨[2], by decide, by decide⟩⟩

/-! ## Claim C3 -/

/-- C3: the tiny roundtrip scenario.  `Encoder::new([0x41,0x42,0x43], 2)` pads to
`[0x41,0x42,0x43,0x01]` with `piece_byte_len = 2` and pieces `[0x41,0x42]`,
`[0x43,0x01]`; coding vectors `[1,0]` and `[0,1]` produce payloads `[0x41,0x42]`
and `[0x43,0x01]`; the decoder fed both full pieces in order holds the matrix
`[[1,0,0x41,0x42],[0,1,0x43,0x01]]` at full rank, the payload concatenation is
`[0x41,0x42,0x43,0x01]` with the last marker at index 3, and `get_decoded_data`
returns `[0x41,0x42,0x43]`. -/
theorem C3_tiny_roundtrip :
    Encoder.new [0x41, 0x42, 0x43] 2 = .ok ⟨[0x41, 0x42, 0x43, 0x01], 2, 2⟩ ∧
    chunksExact 2 [0x41, 0x42, 0x43, 0x01] = [[0x41, 0x42], [0x43, 0x01]] ∧
    (⟨[0x41, 0x42, 0x43, 0x01], 2, 2⟩ : Encoder).code_with_coding_vector [1, 0] [0, 0]
      = .ok [0x41, 0x42] ∧
    (⟨[0x41, 0x42, 0x43, 0x01], 2, 2⟩ : Encoder).code_with_coding_vector [0, 1] [0, 0]
      = .ok [0x43, 0x01] ∧
    Decoder.new 2 2 = .ok ⟨[], 2, 2, 0, 0⟩ ∧
    ((⟨[], 2, 2, 0, 0⟩ : Decoder).decode [1, 0, 0x41, 0x42]).1 = .ok () ∧
    (((⟨[], 2, 2, 0, 0⟩ : Decoder).decode [1, 0, 0x41, 0x42]).2.decode
        [0, 1, 0x43, 0x01]).1 = .ok () ∧
    (((⟨[], 2, 2, 0, 0⟩ : Decoder).decode [1, 0, 0x41, 0x42]).2.decode
        [0, 1, 0x43, 0x01]).2
      = ⟨[1, 0, 0x41, 0x42, 0, 1, 0x43, 0x01], 2, 2, 2, 2⟩ ∧
    (chunksExact 4 [1, 0, 0x41, 0x42, 0, 1, 0x43, 0x01]).foldl
      (fun acc c => acc ++ c.drop 2) [] = [0x41, 0x42, 0x43, 0x01] ∧
    lastMarkerIdx [0x41, 0x42, 0x43, 0x01] = some 3 ∧
    (⟨[1, 0, 0x41, 0x42, 0, 1, 0x43, 0x01], 2, 2, 2, 2⟩ : Decoder).get_decoded_data
      = .ok [0x41, 0x42, 0x43] := by
  decide

/-! ## Claim C5 -/

/-- C5: the table-based scalar multiplication agrees with the reference
carryless-multiply-then-reduce definition on every pair of bytes, and the zero
element annihilates on either side. -/
theorem C5_mul_matches_reference :
    ∀ a < 256, ∀ b < 256,
      mulConst a b = gfRefMul a b ∧ mulConst 0 b = 0 ∧ mulConst a 0 = 0 := by
  intro a ha b hb
  exact ⟨mulConst_eq_refMul ha hb, zero_mulConst b, mulConst_zero a⟩

/-- Witness for C5 at the concrete pair (0x53, 0xCA). -/
theorem C5_mul_matches_reference_witness :
    (0x53 : Nat) < 256 ∧ (0xCA : Nat) < 256 ∧
      (mulConst 0x53 0xCA = gfRefMul 0x53 0xCA ∧ mulConst 0 0xCA = 0 ∧ mulConst 0x53 0 = 0) :=
  ⟨by decide, by decide, C5_mul_matches_reference 0x53 (by decide) 0xCA (by decide)⟩

/-! ## Claim C9 -/

/-- C9: the claim states the `unwrap_unchecked` on `Encoder::without_padding`
inside `Recoder::new` can never consume an error once the four explicit checks
pass.  Counterexample: `data = [0x00]`, `full_coded_piece_byte_len = 2`,
`num_pieces_coded_together = 1` passes all four checks, yet
`num_pieces_received = 1 / 2 = 0`, the concatenated payload is empty, and
`Encoder::without_padding([], 0)` returns `Err(DataLengthZero)` — the branch the
unchecked unwrap consumes (modelled as `none`, undefined behavior in Rust). -/
theorem C9_unwrap_unchecked_reachable :
    (([0] : List Nat).isEmpty = false ∧ (2 : Nat) ≠ 0 ∧ (1 : Nat) ≠ 0 ∧ ¬ (2 ≤ 1)) ∧
    ([0] : List Nat).length / 2 = 0 ∧
    Encoder.without_padding ([] : List Nat) 0 = .error .DataLengthZero ∧
    Recoder.new [0] 2 1 = none := by
  decide

/-! ## Claim C10 -/

theorem foldl_preserves_received {α : Type} (f : Decoder → α → Decoder)
    (h : ∀ t a, (f t a).received_piece_count = t.received_piece_count) :
    ∀ (l : List α) (s : Decoder),
      (l.foldl f s).received_piece_count = s.received_piece_count
  | [], _ => rfl
  | a :: l, s => by
    rw [List.foldl_cons, foldl_preserves_received f h l (f s a), h]

theorem elimRowFrom_received (s : Decoder) (i j : Nat) :
    (s.elimRowFrom i j).received_piece_count = s.received_piece_count := by
  unfold Decoder.elimRowFrom
  refine foldl_preserves_received _ ?_ _ _
  intro t k
  rfl

theorem swap_rows_received (s : Decoder) (r1 r2 : Nat) :
    (s.swap_rows r1 r2).received_piece_count = s.received_piece_count := by
  unfold Decoder.swap_rows
  refine foldl_preserves_received _ ?_ _ _
  intro t c
  rfl

theorem elimBelow_received (s : Decoder) (rows i : Nat) :
    (s.elimBelow rows i).received_piece_count = s.received_piece_count := by
  unfold Decoder.elimBelow
  refine foldl_preserves_received _ ?_ _ _
  intro t j
  by_cases hc : t.get j i = 0
  · simp [hc]
  · simp [hc, elimRowFrom_received]

theorem forwardStep_received (s : Decoder) (rows i : Nat) :
    (s.forwardStep rows i).received_piece_count = s.received_piece_count := by
  unfold Decoder.forwardStep
  by_cases hc : s.get i i ≠ 0
  · simp [hc, elimBelow_received]
  · simp only [hc, if_false, if_neg hc]
    cases hp : s.findPivotRow i rows with
    | none => rfl
    | some p => rw [elimBelow_received, swap_rows_received]

theorem clean_forward_received (s : Decoder) :
    s.clean_forward.received_piece_count = s.received_piece_count := by
  unfold Decoder.clean_forward
  refine foldl_preserves_received _ ?_ _ _
  intro t i
  exact forwardStep_received t _ i

theorem backStep_received (s : Decoder) (i : Nat) :
    (s.backStep i).received_piece_count = s.received_piece_count := by
  unfold Decoder.backStep
  by_cases hz : s.get i i = 0
  · simp [hz]
  · simp only [hz, if_false, if_neg hz]
    have h1 : ((List.range i).foldl
        (fun t j => if t.get j i = 0 then t else t.elimRowFrom i j) s).received_piece_count
        = s.received_piece_count := by
      refine foldl_preserves_received _ ?_ _ _
      intro t j
      by_cases hc : t.get j i = 0
      · simp [hc]
      · simp [hc, elimRowFrom_received]
    set s1 := (List.range i).foldl
      (fun t j => if t.get j i = 0 then t else t.elimRowFrom i j) s with hs1
    by_cases ho : s1.get i i = 1
    · simp only [ho, if_true, if_pos ho]
      exact h1
    · simp only [ho, if_false, if_neg ho]
      have hfold := foldl_preserves_received
        (fun t j => if t.get i j = 0 then t
          else t.set i j (mulConst (t.get i j) ((gfInv (s1.get i i)).getD 0)))
        (fun t j => by
          by_cases hc : t.get i j = 0
          · simp [hc]
          · simp [hc, Decoder.set])
        (List.range' (i + 1) (s1.cols - (i + 1))) (s1.set i i 1)
      show ((List.range' (i + 1) (s1.cols - (i + 1))).foldl
        (fun t j => if t.get i j = 0 then t
          else t.set i j (mulConst (t.get i j) ((gfInv (s1.get i i)).getD 0)))
        (s1.set i i 1)).received_piece_count = s.received_piece_count
      rw [hfold]
      show s1.received_piece_count = s.received_piece_count
      exact h1

theorem clean_backward_received (s : Decoder) :
    s.clean_backward.received_piece_count = s.received_piece_count := by
  unfold Decoder.clean_backward
  refine foldl_preserves_received _ ?_ _ _
  intro t i
  exact backStep_received t i

theorem remove_zero_rows_received (s : Decoder) :
    s.remove_zero_rows.received_piece_count = s.received_piece_count := rfl

theorem rref_received (s : Decoder) :
    s.rref.received_piece_count = s.received_piece_count := by
  unfold Decoder.rref
  rw [remove_zero_rows_received, clean_backward_received, clean_forward_received]

/-- C10: a `decode` call that fails with `ReceivedAllPieces` or `InvalidPieceLength`
returns before touching any state, so the post-call decoder equals the pre-call
decoder; on every other outcome (`Ok` or `PieceNotUseful`) the received counter is
incremented by exactly one. -/
theorem C10_decode_error_state_unchanged (s : Decoder) (piece : List Nat) :
    ((s.decode piece).1 = .error .ReceivedAllPieces → (s.decode piece).2 = s) ∧
    ((s.decode piece).1 = .error .InvalidPieceLength → (s.decode piece).2 = s) ∧
    (((s.decode piece).1 = .ok () ∨ (s.decode piece).1 = .error .PieceNotUseful) →
      (s.decode piece).2.received_piece_count = s.received_piece_count + 1) := by
  unfold Decoder.decode
  by_cases h1 : s.is_already_decoded
  · simp [h1]
  · by_cases h2 : piece.length = s.get_full_coded_piece_byte_len
    · simp only [h1, Bool.false_eq_true, if_false, h2, ne_eq, not_true_eq_false]
      split
      · exact ⟨by simp, by simp, fun _ => by rw [rref_received]⟩
      · exact ⟨by simp, by simp, fun _ => by rw [rref_received]⟩
    · simp [h1, h2]

/-- Witness for C10: a fresh `Decoder::new(1,1)` fed the empty slice fails with
`InvalidPieceLength` and is returned unchanged. -/
theorem C10_decode_error_state_unchanged_witness :
    ((⟨[], 1, 1, 0, 0⟩ : Decoder).decode []).1 = .error .InvalidPieceLength ∧
    ((⟨[], 1, 1, 0, 0⟩ : Decoder).decode []).2 = ⟨[], 1, 1, 0, 0⟩ :=
  ⟨by decide, (C10_decode_error_state_unchanged ⟨[], 1, 1, 0, 0⟩ []).2.1 (by decide)⟩

/-! ## Claim C6 -/

theorem set_append_len (l1 l2 : List Nat) (v : Nat) :
    (l1 ++ l2).set l1.length v = l1 ++ l2.set 0 v := by
  induction l1 with
  | nil => simp
  | cons a t ih => simp [ih]

/-- C6: `Encoder::new` rejects an empty payload with `DataLengthZero` and a zero
piece count with `PieceCountZero`; otherwise it succeeds with
`piece_byte_len = (len + 1).div_ceil(piece_count)`, keeps the payload bytes
unchanged, writes the boundary marker 0x01 right after them, and zero-fills up to
`piece_count * piece_byte_len`. -/
theorem C6_encoder_new (data : List Nat) (piece_count : Nat) :
    (data = [] → Encoder.new data piece_count = .error .DataLengthZero) ∧
    (data ≠ [] → piece_count = 0 → Encoder.new data piece_count = .error .PieceCountZero) ∧
    (data ≠ [] → piece_count ≠ 0 →
      Encoder.new data piece_count = .ok
        ⟨data ++ BOUNDARY_MARKER ::
            List.replicate (piece_count * ((data.length + 1 + piece_count - 1) / piece_count)
              - (data.length + 1)) 0,
          piece_count, (data.length + 1 + piece_count - 1) / piece_count⟩ ∧
      data.length + 1 ≤ piece_count * ((data.length + 1 + piece_count - 1) / piece_count)) := by
  refine ⟨fun hd => ?_, fun hd hpc => ?_, fun hd hpc => ?_⟩
  · simp [hd, Encoder.new]
  · have hne : data.isEmpty = false := by
      cases data with
      | nil => exact absurd rfl hd
      | cons a t => rfl
    simp [Encoder.new, hne, hpc]
  · have hne : data.isEmpty = false := by
      cases data with
      | nil => exact absurd rfl hd
      | cons a t => rfl
    have hpcpos : 0 < piece_count := Nat.pos_of_ne_zero hpc
    have hbound : data.length + 1
        ≤ piece_count * ((data.length + 1 + piece_count - 1) / piece_count) := by
      have hm : (data.length + 1 + piece_count - 1) / piece_count
          = (data.length + piece_count) / piece_count := by congr 1; omega
      have hmod := Nat.div_add_mod (data.length + piece_count) piece_count
      have hlt : (data.length + piece_count) % piece_count < piece_count :=
        Nat.mod_lt _ hpcpos
      rw [hm]
      omega
    refine ⟨?_, hbound⟩
    simp only [Encoder.new, hne, Bool.false_eq_true, if_false, hpc, if_neg hpc]
    have hres : listResize data
        (piece_count * ((data.length + 1 + piece_count - 1) / piece_count)) 0
        = data ++ List.replicate
            (piece_count * ((data.length + 1 + piece_count - 1) / piece_count)
              - data.length) 0 := by
      unfold listResize
      rw [if_neg (by omega)]
    rw [hres]
    have hsplit : piece_count * ((data.length + 1 + piece_count - 1) / piece_count)
        - data.length
        = (piece_count * ((data.length + 1 + piece_count - 1) / piece_count)
            - (data.length + 1)) + 1 := by omega
    rw [hsplit, List.replicate_succ, set_append_len]
    rfl

/-- Witness for C6: the three branches at concrete inputs; with payload `[7]` and
two pieces, `piece_byte_len = 1` and the padded buffer is `[7, 1]`. -/
theorem C6_encoder_new_witness :
    Encoder.new ([] : List Nat) 2 = .error .DataLengthZero ∧
    Encoder.new [7] 0 = .error .PieceCountZero ∧
    Encoder.new [7] 2 = .ok ⟨[7, 1], 2, 1⟩ :=
  ⟨(C6_encoder_new [] 2).1 rfl,
   (C6_encoder_new [7] 0).2.1 (by decide) rfl,
   ((C6_encoder_new [7] 2).2.2 (by decide) (by decide)).1⟩

/-! ## Claim C8 -/

theorem isEmpty_false_of_length_pos {l : List Nat} (h : 0 < l.length) :
    l.isEmpty = false := by
  cases l with
  | nil => simp at h
  | cons a t => rfl

theorem chunksExactAux_congr (n : Nat) (hn : 0 < n) :
    ∀ (f1 f2 : Nat) (l : List Nat), l.length ≤ f1 → l.length ≤ f2 →
      chunksExactAux f1 n l = chunksExactAux f2 n l := by
  intro f1
  induction f1 with
  | zero =>
    intro f2 l h1 h2
    have hl : l = [] := List.eq_nil_of_length_eq_zero (by omega)
    subst hl
    cases f2 with
    | zero => rfl
    | succ m =>
      show [] = (if n = 0 ∨ ([] : List Nat).length < n then [] else _)
      rw [if_pos (Or.inr (by simp [hn]))]
  | succ f ih =>
    intro f2 l h1 h2
    cases f2 with
    | zero =>
      have hl : l = [] := List.eq_nil_of_length_eq_zero (by omega)
      subst hl
      show (if n = 0 ∨ ([] : List Nat).length < n then [] else _) = []
      rw [if_pos (Or.inr (by simp [hn]))]
    | succ m =>
      show (if n = 0 ∨ l.length < n then [] else l.take n :: chunksExactAux f n (l.drop n))
        = (if n = 0 ∨ l.length < n then [] else l.take n :: chunksExactAux m n (l.drop n))
      by_cases hc : n = 0 ∨ l.length < n
      · rw [if_pos hc, if_pos hc]
      · rw [if_neg hc, if_neg hc]
        push_neg at hc
        congr 1
        exact ih m (l.drop n) (by simp only [List.length_drop]; omega)
          (by simp only [List.length_drop]; omega)

theorem chunksExact_short {n : Nat} {l : List Nat} (h : l.length < n) :
    chunksExact n l = [] := by
  unfold chunksExact
  cases hf : l.length with
  | zero => rfl
  | succ m =>
    show (if n = 0 ∨ l.length < n then [] else _) = []
    rw [if_pos (Or.inr h)]

theorem chunksExact_step {n : Nat} (hn : 0 < n) {l : List Nat} (hl : n ≤ l.length) :
    chunksExact n l = l.take n :: chunksExact n (l.drop n) := by
  unfold chunksExact
  obtain ⟨m, hm⟩ : ∃ m, l.length = m + 1 := ⟨l.length - 1, by omega⟩
  rw [hm]
  show (if n = 0 ∨ l.length < n then [] else l.take n :: chunksExactAux m n (l.drop n)) = _
  rw [if_neg (by omega),
    chunksExactAux_congr n hn m (l.drop n).length (l.drop n)
      (by simp only [List.length_drop]; omega) (Nat.le_refl _)]

theorem chunksExact_flatten : ∀ (L : List (List Nat)) (n : Nat), 0 < n →
    (∀ c ∈ L, c.length = n) → chunksExact n L.flatten = L := by
  intro L
  induction L with
  | nil =>
    intro n hn _
    exact chunksExact_short (by simp [hn])
  | cons c L2 ih =>
    intro n hn hc
    have hclen : c.length = n := hc c (List.mem_cons_self _ _)
    have hrest : ∀ x ∈ L2, x.length = n := fun x hx => hc x (List.mem_cons_of_mem _ hx)
    rw [List.flatten_cons, chunksExact_step hn (by simp [← hclen])]
    rw [List.take_left' hclen, List.drop_left' hclen]
    rw [ih n hn hrest]

theorem chunksExact_length (n : Nat) (hn : 0 < n) (l : List Nat) :
    (chunksExact n l).length = l.length / n := by
  by_cases h : l.length < n
  · rw [chunksExact_short h, Nat.div_eq_of_lt h]
    rfl
  · push_neg at h
    have ih := chunksExact_length n hn (l.drop n)
    rw [chunksExact_step hn h, List.length_cons, ih, List.length_drop,
      Nat.div_eq_sub_div hn h]
termination_by l.length
decreasing_by simp only [List.length_drop]; omega

theorem chunksExact_mem (n : Nat) (hn : 0 < n) (l : List Nat) :
    ∀ c ∈ chunksExact n l, c.length = n := by
  by_cases h : l.length < n
  · rw [chunksExact_short h]
    intro c hc
    simp at hc
  · push_neg at h
    have ih := chunksExact_mem n hn (l.drop n)
    rw [chunksExact_step hn h]
    intro c hc
    rcases List.mem_cons.mp hc with rfl | hmem
    · simp only [List.length_take]
      omega
    · exact ih c hmem
termination_by l.length
decreasing_by simp only [List.length_drop]; omega

theorem flatMap_drop_length (L : List (List Nat)) (k n : Nat)
    (hc : ∀ c ∈ L, c.length = n) :
    (L.flatMap (fun c => c.drop k)).length = L.length * (n - k) := by
  induction L with
  | nil => simp
  | cons c L2 ih =>
    simp only [List.flatMap_cons, List.length_append, List.length_drop, List.length_cons]
    rw [hc c (List.mem_cons_self _ _), ih (fun x hx => hc x (List.mem_cons_of_mem _ hx)),
      Nat.succ_mul, Nat.add_comm]

/-- C8 counterexample: `received_bytes = [5, 6]`, `full_len = 3`, `k = 1` passes all
four explicit checks of `Recoder::new`, so the claim asserts success; instead
`num_pieces_received = 2 / 3 = 0` and the internal unchecked unwrap consumes
`Err(DataLengthZero)` (modelled `none`: undefined behavior), so no `Recoder` is
produced. -/
theorem C8_recoder_new_counterexample :
    (([5, 6] : List Nat) ≠ [] ∧ (3 : Nat) ≠ 0 ∧ (1 : Nat) ≠ 0 ∧ ¬ ((3 : Nat) ≤ 1)) ∧
    Recoder.new [5, 6] 3 1 = none := by
  decide

/-- C8 (amended): `Recoder::new` fails with `NotEnoughPiecesToRecode` on empty
input, `PieceLengthZero` on `full_len = 0`, `PieceCountZero` on `k = 0`,
`PieceLengthTooShort` on `full_len ≤ k`; otherwise, provided additionally
`full_len ≤ |received_bytes|` (that is, `n = ⌊|received_bytes| / full_len⌋ ≥ 1`),
it succeeds, storing the `n` received pieces split into coding vectors and
payloads with any trailing bytes shorter than `full_len` discarded; when
`|received_bytes| < full_len` the internal `unwrap_unchecked` consumes an error
(undefined behavior, modelled `none`). -/
theorem C8_recoder_new (data : List Nat) (full_len k : Nat) :
    (data = [] → Recoder.new data full_len k = some (.error .NotEnoughPiecesToRecode)) ∧
    (data ≠ [] → full_len = 0 → Recoder.new data full_len k = some (.error .PieceLengthZero)) ∧
    (data ≠ [] → full_len ≠ 0 → k = 0 →
      Recoder.new data full_len k = some (.error .PieceCountZero)) ∧
    (data ≠ [] → full_len ≠ 0 → k ≠ 0 → full_len ≤ k →
      Recoder.new data full_len k = some (.error .PieceLengthTooShort)) ∧
    (k ≠ 0 → k < full_len → full_len ≤ data.length →
      Recoder.new data full_len k = some (.ok
        ⟨(chunksExact full_len data).flatMap (fun c => c.take k),
         ⟨(chunksExact full_len data).flatMap (fun c => c.drop k),
          data.length / full_len, full_len - k⟩,
         data.length / full_len, full_len, k⟩)) ∧
    (k ≠ 0 → k < full_len → data ≠ [] → data.length < full_len →
      Recoder.new data full_len k = none) := by
  refine ⟨fun hd => ?_, fun hd hf => ?_, fun hd hf hk => ?_, fun hd hf hk hfk => ?_,
    fun hk0 hk hlen => ?_, fun hk0 hk hd hlen => ?_⟩
  · simp [hd, Recoder.new]
  · have hne : data.isEmpty = false := isEmpty_false_of_length_pos
      (by cases data with | nil => exact absurd rfl hd | cons a t => simp)
    simp [Recoder.new, hne, hf]
  · have hne : data.isEmpty = false := isEmpty_false_of_length_pos
      (by cases data with | nil => exact absurd rfl hd | cons a t => simp)
    simp [Recoder.new, hne, hf, hk]
  · have hne : data.isEmpty = false := isEmpty_false_of_length_pos
      (by cases data with | nil => exact absurd rfl hd | cons a t => simp)
    simp [Recoder.new, hne, hf, hk, hfk]
  · have hfpos : 0 < full_len := by omega
    have hne : data.isEmpty = false := isEmpty_false_of_length_pos (by omega)
    have hnpos : 0 < data.length / full_len := Nat.div_pos hlen hfpos
    have hmem := chunksExact_mem full_len hfpos data
    have hclen : (chunksExact full_len data).length = data.length / full_len :=
      chunksExact_length _ hfpos data
    have hcoded : ((chunksExact full_len data).flatMap (fun c => c.drop k)).length
        = (data.length / full_len) * (full_len - k) := by
      rw [flatMap_drop_length _ k full_len hmem, hclen]
    have hwp : Encoder.without_padding
        ((chunksExact full_len data).flatMap (fun c => c.drop k)) (data.length / full_len)
        = .ok ⟨(chunksExact full_len data).flatMap (fun c => c.drop k),
            data.length / full_len, full_len - k⟩ := by
      have hpos : 0 < ((chunksExact full_len data).flatMap (fun c => c.drop k)).length := by
        rw [hcoded]
        exact Nat.mul_pos hnpos (by omega)
      have hne2 := isEmpty_false_of_length_pos hpos
      simp only [Encoder.without_padding, hne2, Bool.false_eq_true, if_false]
      rw [if_neg (show ¬(data.length / full_len = 0) by omega)]
      rw [hcoded, Nat.mul_div_cancel_left _ hnpos]
      rw [if_neg (fun hcon => hcon (Nat.mul_comm _ _))]
    simp only [Recoder.new, hne, Bool.false_eq_true, if_false]
    rw [if_neg (show ¬(full_len = 0) by omega), if_neg (show ¬(k = 0) by omega),
      if_neg (show ¬(full_len ≤ k) by omega)]
    simp only [hwp]
  · have hfpos : 0 < full_len := by omega
    have hne : data.isEmpty = false := isEmpty_false_of_length_pos
      (by cases data with | nil => exact absurd rfl hd | cons a t => simp)
    simp only [Recoder.new, hne, Bool.false_eq_true, if_false]
    rw [if_neg (show ¬(full_len = 0) by omega), if_neg (show ¬(k = 0) by omega),
      if_neg (show ¬(full_len ≤ k) by omega)]
    rw [chunksExact_short hlen]
    simp [Encoder.without_padding]

/-- Witness for C8: every branch of the amended claim at concrete inputs. -/
theorem C8_recoder_new_witness :
    Recoder.new ([] : List Nat) 3 1 = some (.error .NotEnoughPiecesToRecode) ∧
    Recoder.new [1, 2, 3] 0 1 = some (.error .PieceLengthZero) ∧
    Recoder.new [1, 2, 3] 3 0 = some (.error .PieceCountZero) ∧
    Recoder.new [1, 2, 3] 2 2 = some (.error .PieceLengthTooShort) ∧
    Recoder.new [1, 2, 3] 3 1 = some (.ok ⟨[1], ⟨[2, 3], 1, 2⟩, 1, 3, 1⟩) ∧
    Recoder.new [9] 3 1 = none :=
  ⟨(C8_recoder_new [] 3 1).1 rfl,
   (C8_recoder_new [1, 2, 3] 0 1).2.1 (by decide) rfl,
   (C8_recoder_new [1, 2, 3] 3 0).2.2.1 (by decide) (by decide) rfl,
   (C8_recoder_new [1, 2, 3] 2 2).2.2.2.1 (by decide) (by decide) (by decide) (by decide),
   (C8_recoder_new [1, 2, 3] 3 1).2.2.2.2.1 (by decide) (by decide) (by decide),
   (C8_recoder_new [9] 3 1).2.2.2.2.2 (by decide) (by decide) (by decide) (by decide)⟩

/-! ## Claim C7 -/

theorem getD_drop (l : List Nat) : ∀ (n i : Nat), (l.drop n).getD i 0 = l.getD (n + i) 0 := by
  induction l with
  | nil => simp
  | cons a t ih =>
    intro n i
    cases n with
    | zero => simp
    | succ m =>
      rw [List.drop_succ_cons, show m + 1 + i = (m + i) + 1 by omega, List.getD_cons_succ]
      exact ih m i

theorem getD_mem {l : List Nat} {i : Nat} (h : i < l.length) : l.getD i 0 ∈ l := by
  simp only [List.getD_eq_getElem?_getD, List.getElem?_eq_getElem h, Option.getD_some]
  exact List.getElem_mem h

theorem getD_reverse (l : List Nat) (i : Nat) (h : i < l.length) :
    l.reverse.getD i 0 = l.getD (l.length - 1 - i) 0 := by
  simp only [List.getD_eq_getElem?_getD]
  rw [List.getElem?_reverse h]

theorem findIdx?_of_first (p : Nat → Bool) :
    ∀ (l : List Nat) (i s : Nat), i < l.length → p (l.getD i 0) = true →
      (∀ j, j < i → p (l.getD j 0) = false) → List.findIdx? p l s = some (s + i) := by
  intro l
  induction l with
  | nil =>
    intro i s hi
    simp at hi
  | cons a t ih =>
    intro i s hi hp hbefore
    cases i with
    | zero =>
      rw [List.getD_cons_zero] at hp
      rw [List.findIdx?, if_pos hp, Nat.add_zero]
    | succ i2 =>
      have ha : p a = false := hbefore 0 (Nat.succ_pos _)
      rw [List.findIdx?, if_neg (by rw [ha]; exact Bool.false_ne_true)]
      rw [ih i2 (s + 1) (by simpa using hi) (by simpa using hp)
        (fun j hj => by simpa using hbefore (j + 1) (by omega))]
      congr 1
      omega

theorem findIdx?_of_none (p : Nat → Bool) :
    ∀ (l : List Nat) (s : Nat), (∀ j, j < l.length → p (l.getD j 0) = false) →
      List.findIdx? p l s = none := by
  intro l
  induction l with
  | nil => intro s _; rfl
  | cons a t ih =>
    intro s hall
    have ha : p a = false := by simpa using hall 0 (Nat.succ_pos _)
    rw [List.findIdx?, if_neg (by rw [ha]; exact Bool.false_ne_true)]
    exact ih (s + 1) (fun j hj => by simpa using hall (j + 1) (by simpa using hj))

/-- C7: at full rank, `get_decoded_data` concatenates the per-row payload tails and
scans for the last boundary marker: no marker or a marker at index 0 yields
`InvalidDecodedDataFormat`, a nonzero byte after the last marker yields
`InvalidDecodedDataFormat`, and otherwise the concatenation truncated at the
marker is returned; below full rank it fails with `NotAllPiecesReceivedYet`. -/
theorem C7_get_decoded_data (s : Decoder) :
    (s.useful_piece_count ≠ s.required_piece_count →
      s.get_decoded_data = .error .NotAllPiecesReceivedYet) ∧
    (s.useful_piece_count = s.required_piece_count →
      ((∀ j, j < s.payloadConcat.length → s.payloadConcat.getD j 0 ≠ BOUNDARY_MARKER) →
        s.get_decoded_data = .error .InvalidDecodedDataFormat) ∧
      (∀ b, b < s.payloadConcat.length → s.payloadConcat.getD b 0 = BOUNDARY_MARKER →
        (∀ j, b < j → j < s.payloadConcat.length →
          s.payloadConcat.getD j 0 ≠ BOUNDARY_MARKER) →
        ((b = 0 → s.get_decoded_data = .error .InvalidDecodedDataFormat) ∧
         ((∃ j, b < j ∧ j < s.payloadConcat.length ∧ s.payloadConcat.getD j 0 ≠ 0) →
           s.get_decoded_data = .error .InvalidDecodedDataFormat) ∧
         (b ≠ 0 → (∀ j, b < j → j < s.payloadConcat.length → s.payloadConcat.getD j 0 = 0) →
           s.get_decoded_data = .ok (s.payloadConcat.take b))))) := by
  constructor
  · intro hne
    unfold Decoder.get_decoded_data
    rw [if_pos (by simp [Decoder.is_already_decoded, Decoder.rank, hne])]
  · intro heq
    have hdec2 : ¬ ¬ (s.is_already_decoded = true) := by
      simp [Decoder.is_already_decoded, Decoder.rank, heq]
    have hred : s.get_decoded_data =
        (if s.payloadConcat.length - 1
            - ((s.payloadConcat.reverse.findIdx? (fun x => x == BOUNDARY_MARKER)).getD
                (s.payloadConcat.length - 1)) = 0
         then .error .InvalidDecodedDataFormat
         else if (s.payloadConcat.drop ((s.payloadConcat.length - 1
            - ((s.payloadConcat.reverse.findIdx? (fun x => x == BOUNDARY_MARKER)).getD
                (s.payloadConcat.length - 1))) + 1)).any (fun x => x != 0)
         then .error .InvalidDecodedDataFormat
         else .ok (s.payloadConcat.take (s.payloadConcat.length - 1
            - ((s.payloadConcat.reverse.findIdx? (fun x => x == BOUNDARY_MARKER)).getD
                (s.payloadConcat.length - 1))))) := by
      unfold Decoder.get_decoded_data
      rw [if_neg hdec2]
    constructor
    · intro hno
      have hfind : s.payloadConcat.reverse.findIdx? (fun x => x == BOUNDARY_MARKER)
          = none := by
        refine findIdx?_of_none _ _ 0 (fun j hj => ?_)
        rw [List.length_reverse] at hj
        rw [getD_reverse _ _ hj]
        exact beq_eq_false_iff_ne.mpr (hno _ (by omega))
      rw [hred, hfind]
      simp
    · intro b hb hmark hafter
      have hlen0 : 0 < s.payloadConcat.length := by omega
      have hfind : s.payloadConcat.reverse.findIdx? (fun x => x == BOUNDARY_MARKER)
          = some (s.payloadConcat.length - 1 - b) := by
        have h0 : (0 : Nat) + (s.payloadConcat.length - 1 - b)
            = s.payloadConcat.length - 1 - b := Nat.zero_add _
        rw [← h0]
        refine findIdx?_of_first _ _ _ 0 (by rw [List.length_reverse]; omega) ?_ ?_
        · rw [getD_reverse _ _ (by omega)]
          rw [show s.payloadConcat.length - 1 - (s.payloadConcat.length - 1 - b) = b
            by omega]
          exact beq_iff_eq.mpr hmark
        · intro j hj
          rw [getD_reverse _ _ (by omega)]
          exact beq_eq_false_iff_ne.mpr (hafter _ (by omega) (by omega))
      have hsimp : s.get_decoded_data =
          (if b = 0 then .error .InvalidDecodedDataFormat
           else if (s.payloadConcat.drop (b + 1)).any (fun x => x != 0)
           then .error .InvalidDecodedDataFormat
           else .ok (s.payloadConcat.take b)) := by
        rw [hred, hfind]
        simp only [Option.getD_some]
        rw [show s.payloadConcat.length - 1 - (s.payloadConcat.length - 1 - b) = b
          by omega]
      refine ⟨fun hb0 => ?_, fun hex => ?_, fun hb0 hzero => ?_⟩
      · rw [hsimp, if_pos hb0]
      · rw [hsimp]
        by_cases hb0 : b = 0
        · rw [if_pos hb0]
        · rw [if_neg hb0]
          have hany : (s.payloadConcat.drop (b + 1)).any (fun x => x != 0) = true := by
            rw [List.any_eq_true]
            obtain ⟨j, hj1, hj2, hj3⟩ := hex
            refine ⟨s.payloadConcat.getD j 0, ?_, by simpa [bne_iff_ne] using hj3⟩
            rw [show s.payloadConcat.getD j 0
                = (s.payloadConcat.drop (b + 1)).getD (j - (b + 1)) 0 by
              rw [getD_drop, show b + 1 + (j - (b + 1)) = j by omega]]
            refine getD_mem ?_
            rw [List.length_drop]
            omega
          rw [if_pos hany]
      · have hany : (s.payloadConcat.drop (b + 1)).any (fun x => x != 0) = false := by
          rw [List.any_eq_false]
          intro x hxmem
          obtain ⟨i, hi, hix⟩ := List.mem_iff_getElem.mp hxmem
          rw [List.length_drop] at hi
          have hgd : x = s.payloadConcat.getD (b + 1 + i) 0 := by
            rw [← getD_drop, ← hix]
            simp [List.getD_eq_getElem?_getD, List.getElem?_eq_getElem
              (show i < (s.payloadConcat.drop (b + 1)).length by
                rw [List.length_drop]; omega)]
          rw [hzero (b + 1 + i) (by omega) (by omega)] at hgd
          simp [hgd]
        rw [hsimp, if_neg hb0, if_neg (by simp [hany])]

/-- Witness for C7: the full-rank decoder of the tiny roundtrip (marker at index 3,
nothing after it) and a not-yet-complete decoder. -/
theorem C7_get_decoded_data_witness :
    (⟨[1, 0, 65, 66], 2, 2, 1, 1⟩ : Decoder).get_decoded_data
      = .error .NotAllPiecesReceivedYet ∧
    (⟨[1, 0, 65, 66, 0, 1, 67, 1], 2, 2, 2, 2⟩ : Decoder).get_decoded_data
      = .ok [65, 66, 67] :=
  ⟨(C7_get_decoded_data ⟨[1, 0, 65, 66], 2, 2, 1, 1⟩).1 (by decide),
   (((C7_get_decoded_data ⟨[1, 0, 65, 66, 0, 1, 67, 1], 2, 2, 2, 2⟩).2 (by decide)).2
      3 (by decide) (by decide)
      (fun j h1 h2 => by
        rw [show (⟨[1, 0, 65, 66, 0, 1, 67, 1], 2, 2, 2, 2⟩ : Decoder).payloadConcat.length
            = 4 by decide] at h2
        exact absurd h1 (by omega))).2.2
      (by decide)
      (fun j h1 h2 => by
        rw [show (⟨[1, 0, 65, 66, 0, 1, 67, 1], 2, 2, 2, 2⟩ : Decoder).payloadConcat.length
            = 4 by decide] at h2
        exact absurd h1 (by omega))⟩

/-! ## Claim C4: supporting lemmas on sums, indexing and the vector kernels -/

theorem getD_of_lt {α : Type} (l : List α) (d : α) (i : Nat) (h : i < l.length) :
    l.getD i d = l[i] := by
  simp [List.getD_eq_getElem?_getD, List.getElem?_eq_getElem h]

theorem getD_mem_poly {α : Type} {l : List α} {d : α} {i : Nat} (h : i < l.length) :
    l.getD i d ∈ l := by
  rw [getD_of_lt _ _ _ h]
  exact List.getElem_mem h

theorem getD_append_left (l1 l2 : List Nat) (t : Nat) (h : t < l1.length) :
    (l1 ++ l2).getD t 0 = l1.getD t 0 := by
  rw [getD_of_lt _ _ _ (by rw [List.length_append]; omega), getD_of_lt _ _ _ h]
  exact List.getElem_append_left h

theorem getD_append_right_len (l1 l2 : List Nat) (t : Nat) :
    (l1 ++ l2).getD (l1.length + t) 0 = l2.getD t 0 := by
  rw [← List.drop_left l1 l2, getD_drop, List.drop_left]

theorem gfSum_nil : gfSum [] = 0 := rfl

theorem gfSum_cons (a : Nat) (l : List Nat) : gfSum (a :: l) = a ^^^ gfSum l := rfl

theorem gfSum_append (l1 l2 : List Nat) : gfSum (l1 ++ l2) = gfSum l1 ^^^ gfSum l2 := by
  induction l1 with
  | nil => simp [gfSum]
  | cons a t ih => simp only [List.cons_append, gfSum_cons, ih, Nat.xor_assoc]

theorem gfSum_lt {l : List Nat} (h : ∀ x ∈ l, x < 256) : gfSum l < 256 := by
  induction l with
  | nil => decide
  | cons a t ih =>
    rw [gfSum_cons]
    exact xor_lt_256 (h a (List.mem_cons_self _ _))
      (ih fun x hx => h x (List.mem_cons_of_mem _ hx))

theorem gfSum_map_xor {α : Type} (l : List α) (f g : α → Nat) :
    gfSum (l.map fun x => f x ^^^ g x) = gfSum (l.map f) ^^^ gfSum (l.map g) := by
  induction l with
  | nil => simp [gfSum]
  | cons a t ih =>
    simp only [List.map_cons, gfSum_cons, ih]
    exact xorInterchange _ _ _ _

theorem gfSum_zero_map {α : Type} (l : List α) : gfSum (l.map fun _ => (0 : Nat)) = 0 := by
  induction l with
  | nil => rfl
  | cons a t ih => simp only [List.map_cons, gfSum_cons, ih, Nat.zero_xor]

theorem mulConst_gfSum {s : Nat} (hs : s < 256) :
    ∀ (l : List Nat), (∀ x ∈ l, x < 256) →
      mulConst s (gfSum l) = gfSum (l.map (fun x => mulConst s x)) := by
  intro l
  induction l with
  | nil =>
    intro _
    simp [gfSum, mulConst_zero]
  | cons a t ih =>
    intro h
    rw [gfSum_cons, List.map_cons, gfSum_cons,
      mulConst_xor_right hs (h a (List.mem_cons_self _ _))
        (gfSum_lt fun x hx => h x (List.mem_cons_of_mem _ hx)),
      ih fun x hx => h x (List.mem_cons_of_mem _ hx)]

theorem gfSum_mulConst {c : Nat} (hc : c < 256) (l : List Nat) (hl : ∀ x ∈ l, x < 256) :
    mulConst (gfSum l) c = gfSum (l.map (fun x => mulConst x c)) := by
  rw [mulConst_comm, mulConst_gfSum hc l hl]
  exact congrArg gfSum (List.map_congr_left fun x hx => mulConst_comm c x)

theorem gfSum_exchange (n k : Nat) (f : Nat → Nat → Nat) :
    gfSum ((List.range n).map fun i => gfSum ((List.range k).map fun j => f i j))
      = gfSum ((List.range k).map fun j => gfSum ((List.range n).map fun i => f i j)) := by
  induction n with
  | zero =>
    simp only [List.range_zero, List.map_nil]
    exact (gfSum_zero_map (List.range k)).symm
  | succ n2 ih =>
    rw [List.range_succ, List.map_append, gfSum_append, ih]
    simp only [List.map_cons, List.map_nil, gfSum_cons, gfSum_nil, Nat.xor_zero]
    rw [← gfSum_map_xor]
    refine congrArg gfSum (List.map_congr_left fun j hj => ?_)
    rw [List.map_append, gfSum_append]
    simp only [List.map_cons, List.map_nil, gfSum_cons, gfSum_nil, Nat.xor_zero]

theorem zipWith_getD (f : Nat → Nat → Nat) (l1 l2 : List Nat) (t : Nat)
    (h1 : t < l1.length) (h2 : t < l2.length) :
    (List.zipWith f l1 l2).getD t 0 = f (l1.getD t 0) (l2.getD t 0) := by
  rw [getD_of_lt _ _ _ (by rw [List.length_zipWith]; omega),
    getD_of_lt _ _ _ h1, getD_of_lt _ _ _ h2]
  exact List.getElem_zipWith

theorem fma_length (dst src : List Nat) (sc : Nat) (h : src.length = dst.length) :
    (gf256_mul_vec_by_scalar_then_add_into_vec dst src sc).length = dst.length := by
  unfold gf256_mul_vec_by_scalar_then_add_into_vec gf256_inplace_add_vectors
  by_cases he : dst.isEmpty
  · rw [if_pos he]
  · by_cases h0 : sc = 0
    · rw [if_neg he, if_pos h0]
    · by_cases h1 : sc = 1
      · rw [if_neg he, if_neg h0, if_pos h1]
        rw [List.length_append, List.length_zipWith, List.length_drop]
        omega
      · rw [if_neg he, if_neg h0, if_neg h1]
        rw [List.length_append, List.length_zipWith, List.length_drop]
        omega

theorem fma_getD (dst src : List Nat) (sc t : Nat) (hlen : src.length = dst.length)
    (hsrc : ∀ x ∈ src, x < 256) (ht : t < dst.length) :
    (gf256_mul_vec_by_scalar_then_add_into_vec dst src sc).getD t 0
      = dst.getD t 0 ^^^ mulConst (src.getD t 0) sc := by
  have hts : t < src.length := by omega
  unfold gf256_mul_vec_by_scalar_then_add_into_vec gf256_inplace_add_vectors
  by_cases he : dst.isEmpty
  · rw [List.isEmpty_iff] at he
    subst he
    simp at ht
  · by_cases h0 : sc = 0
    · rw [if_neg he, if_pos h0, h0, mulConst_zero, Nat.xor_zero]
    · by_cases h1 : sc = 1
      · rw [if_neg he, if_neg h0, if_pos h1]
        rw [getD_append_left _ _ _ (by rw [List.length_zipWith]; omega),
          zipWith_getD _ _ _ _ ht hts, h1,
          mulConst_one (hsrc _ (getD_mem_poly hts))]
      · rw [if_neg he, if_neg h0, if_neg h1]
        rw [getD_append_left _ _ _ (by rw [List.length_zipWith]; omega),
          zipWith_getD _ _ _ _ ht hts]

theorem getD_take (l : List Nat) (n j : Nat) (hj : j < n) (hl : j < l.length) :
    (l.take n).getD j 0 = l.getD j 0 := by
  rw [getD_of_lt _ _ _ (by rw [List.length_take]; omega), getD_of_lt _ _ _ hl]
  exact (List.getElem_take' l hl hj).symm

theorem getD_map_list (f : List Nat → List Nat) (L : List (List Nat)) (i : Nat)
    (h : i < L.length) : (L.map f).getD i [] = f (L.getD i []) := by
  rw [getD_of_lt _ _ _ (by simpa using h), getD_of_lt _ _ _ h]
  simp

theorem flatten_length_const (L : List (List Nat)) (w : Nat)
    (hc : ∀ c ∈ L, c.length = w) : L.flatten.length = L.length * w := by
  induction L with
  | nil => simp
  | cons c T ih =>
    rw [List.flatten_cons, List.length_append, hc c (List.mem_cons_self _ _),
      ih (fun x hx => hc x (List.mem_cons_of_mem _ hx)), List.length_cons,
      Nat.succ_mul, Nat.add_comm]

theorem flatten_const_getD (w : Nat) :
    ∀ (L : List (List Nat)) (i j : Nat), i < L.length → j < w →
      (∀ c ∈ L, c.length = w) → L.flatten.getD (i * w + j) 0 = (L.getD i []).getD j 0 := by
  intro L
  induction L with
  | nil =>
    intro i j hi
    simp at hi
  | cons c T ih =>
    intro i j hi hj hc
    have hcl : c.length = w := hc c (List.mem_cons_self _ _)
    cases i with
    | zero =>
      rw [List.flatten_cons, Nat.zero_mul, Nat.zero_add,
        getD_append_left _ _ _ (by omega)]
      simp
    | succ i2 =>
      rw [List.flatten_cons, show (i2 + 1) * w + j = c.length + (i2 * w + j) by
          rw [hcl, Nat.succ_mul]; omega,
        getD_append_right_len, List.getD_cons_succ]
      exact ih i2 j (by simpa using hi) hj (fun x hx => hc x (List.mem_cons_of_mem _ hx))

theorem foldl_xor_gfSum {α : Type} (g : α → Nat) :
    ∀ (l : List α) (acc : Nat), l.foldl (fun a x => a ^^^ g x) acc = acc ^^^ gfSum (l.map g) := by
  intro l
  induction l with
  | nil =>
    intro acc
    simp [gfSum]
  | cons a t ih =>
    intro acc
    rw [List.foldl_cons, ih, List.map_cons, gfSum_cons, Nat.xor_assoc]

theorem map_zip_range (r : List Nat) (g : Nat → Nat → Nat) :
    ((List.range r.length).zip r).map (fun p => g p.1 p.2)
      = (List.range r.length).map (fun i => g i (r.getD i 0)) := by
  refine List.ext_getElem (by simp) ?_
  intro i h1 h2
  have hir : i < r.length := by simpa using h2
  simp only [List.getElem_map, List.getElem_zip, List.getElem_range]
  rw [getD_of_lt _ _ _ hir]

theorem code_fold_length :
    ∀ (pieces : List (List Nat)) (coeffs : List Nat) (acc : List Nat),
      (∀ q ∈ pieces, q.length = acc.length) →
      ((pieces.zip coeffs).foldl
        (fun a pr => gf256_mul_vec_by_scalar_then_add_into_vec a pr.1 pr.2) acc).length
        = acc.length := by
  intro pieces
  induction pieces with
  | nil =>
    intro coeffs acc _
    rfl
  | cons q T ih =>
    intro coeffs acc hlen
    cases coeffs with
    | nil => rfl
    | cons c cs =>
      rw [List.zip_cons_cons, List.foldl_cons]
      dsimp only
      have hq : q.length = acc.length := hlen q (List.mem_cons_self _ _)
      have hfl := fma_length acc q c hq
      rw [ih cs _ (fun x hx => by
        rw [hfl]
        exact hlen x (List.mem_cons_of_mem _ hx)), hfl]

theorem code_fold_getD :
    ∀ (pieces : List (List Nat)) (coeffs : List Nat) (acc : List Nat),
      (∀ q ∈ pieces, q.length = acc.length) →
      (∀ q ∈ pieces, ∀ x ∈ q, x < 256) →
      ∀ t, t < acc.length →
      ((pieces.zip coeffs).foldl
          (fun a pr => gf256_mul_vec_by_scalar_then_add_into_vec a pr.1 pr.2) acc).getD t 0
        = acc.getD t 0
          ^^^ gfSum ((pieces.zip coeffs).map (fun pr => mulConst (pr.1.getD t 0) pr.2)) := by
  intro pieces
  induction pieces with
  | nil =>
    intro coeffs acc _ _ t ht
    simp [gfSum]
  | cons q T ih =>
    intro coeffs acc hlen hbytes t ht
    cases coeffs with
    | nil => simp [gfSum]
    | cons c cs =>
      rw [List.zip_cons_cons, List.foldl_cons, List.map_cons, gfSum_cons]
      dsimp only
      have hq : q.length = acc.length := hlen q (List.mem_cons_self _ _)
      have hfl := fma_length acc q c hq
      rw [ih cs _ (fun x hx => by
          rw [hfl]
          exact hlen x (List.mem_cons_of_mem _ hx))
        (fun x hx => hbytes x (List.mem_cons_of_mem _ hx)) t (by omega)]
      rw [fma_getD acc q c t hq (hbytes q (List.mem_cons_self _ _)) ht, Nat.xor_assoc]

theorem getD_replicate (w t v : Nat) (h : t < w) : (List.replicate w v).getD t 0 = v := by
  rw [getD_of_lt _ _ _ (by rw [List.length_replicate]; omega)]
  simp

/-- The success case of `Recoder::new` (all four checks pass and at least one full
piece is present), shared by the claims about the recoder. -/
theorem recoderNew_ok (data : List Nat) (full_len k : Nat)
    (hk0 : k ≠ 0) (hk : k < full_len) (hlen : full_len ≤ data.length) :
    Recoder.new data full_len k = some (.ok
      ⟨(chunksExact full_len data).flatMap (fun c => c.take k),
       ⟨(chunksExact full_len data).flatMap (fun c => c.drop k),
        data.length / full_len, full_len - k⟩,
       data.length / full_len, full_len, k⟩) := by
  have hfpos : 0 < full_len := by omega
  have hne : data.isEmpty = false := isEmpty_false_of_length_pos (by omega)
  have hnpos : 0 < data.length / full_len := Nat.div_pos hlen hfpos
  have hmem := chunksExact_mem full_len hfpos data
  have hclen : (chunksExact full_len data).length = data.length / full_len :=
    chunksExact_length _ hfpos data
  have hcoded : ((chunksExact full_len data).flatMap (fun c => c.drop k)).length
      = (data.length / full_len) * (full_len - k) := by
    rw [flatMap_drop_length _ k full_len hmem, hclen]
  have hwp : Encoder.without_padding
      ((chunksExact full_len data).flatMap (fun c => c.drop k)) (data.length / full_len)
      = .ok ⟨(chunksExact full_len data).flatMap (fun c => c.drop k),
          data.length / full_len, full_len - k⟩ := by
    have hpos : 0 < ((chunksExact full_len data).flatMap (fun c => c.drop k)).length := by
      rw [hcoded]
      exact Nat.mul_pos hnpos (by omega)
    have hne2 := isEmpty_false_of_length_pos hpos
    simp only [Encoder.without_padding, hne2, Bool.false_eq_true, if_false]
    rw [if_neg (show ¬(data.length / full_len = 0) by omega)]
    rw [hcoded, Nat.mul_div_cancel_left _ hnpos]
    rw [if_neg (fun hcon => hcon (Nat.mul_comm _ _))]
  simp only [Recoder.new, hne, Bool.false_eq_true, if_false]
  rw [if_neg (show ¬(full_len = 0) by omega), if_neg (show ¬(k = 0) by omega),
    if_neg (show ¬(full_len ≤ k) by omega)]
  simp only [hwp]

/-- C4: a Recoder built from `n` full coded pieces that are valid GF(2^8)-linear
combinations of the `k` source pieces emits, for any sampled recoding vector `r`,
a piece whose coding-vector part is `r · V` and whose payload is the matching
linear combination of the source pieces — again a valid coded piece. -/
theorem C4_recoded_piece_is_valid_combination
    (n k m : Nat) (FP p : List (List Nat)) (r buf : List Nat)
    (hn : 0 < n) (hk : 0 < k) (hm : 0 < m)
    (hFPlen : FP.length = n)
    (hFPeach : ∀ f ∈ FP, f.length = k + m)
    (hFPbytes : ∀ f ∈ FP, ∀ x ∈ f, x < 256)
    (hp : p.length = k)
    (hpeach : ∀ q ∈ p, q.length = m)
    (hpbytes : ∀ q ∈ p, ∀ x ∈ q, x < 256)
    (hr : r.length = n)
    (hrbytes : ∀ x ∈ r, x < 256)
    (hvalid : ∀ i, i < n → ∀ t, t < m →
      (FP.getD i []).getD (k + t) 0
        = gfSum ((List.range k).map fun j =>
            mulConst ((FP.getD i []).getD j 0) ((p.getD j []).getD t 0)))
    (hbuf : buf.length = k + m) :
    ∃ out,
      Recoder.new FP.flatten (k + m) k = some (.ok
        ⟨FP.flatMap (fun c => c.take k), ⟨FP.flatMap (fun c => c.drop k), n, m⟩,
         n, k + m, k⟩) ∧
      (⟨FP.flatMap (fun c => c.take k), ⟨FP.flatMap (fun c => c.drop k), n, m⟩,
         n, k + m, k⟩ : Recoder).recode_with_buf r buf.length = some (.ok out) ∧
      out.length = k + m ∧
      (∀ j, j < k → out.getD j 0 = gfSum ((List.range n).map fun i =>
        mulConst (r.getD i 0) ((FP.getD i []).getD j 0))) ∧
      (∀ t, t < m → out.getD (k + t) 0 = gfSum ((List.range k).map fun j =>
        mulConst (out.getD j 0) ((p.getD j []).getD t 0))) := by
  have hfull : 0 < k + m := by omega
  have hchunks : chunksExact (k + m) FP.flatten = FP :=
    chunksExact_flatten FP (k + m) hfull hFPeach
  have hflen : FP.flatten.length = n * (k + m) := by
    rw [flatten_length_const FP (k + m) hFPeach, hFPlen]
  have hdiv : FP.flatten.length / (k + m) = n := by
    rw [hflen, Nat.mul_comm]
    exact Nat.mul_div_cancel_left n hfull
  have hFPlen2 : ∀ i, i < n → (FP.getD i []).length = k + m :=
    fun i hi => hFPeach _ (getD_mem_poly (by rw [hFPlen]; exact hi))
  have hVb : ∀ i, i < n → ∀ x, x < k + m → (FP.getD i []).getD x 0 < 256 :=
    fun i hi x hx => hFPbytes _ (getD_mem_poly (by rw [hFPlen]; exact hi)) _
      (getD_mem_poly (by rw [hFPlen2 i hi]; exact hx))
  have hrb : ∀ i, i < n → r.getD i 0 < 256 :=
    fun i hi => hrbytes _ (getD_mem_poly (by rw [hr]; exact hi))
  have hpb : ∀ j, j < k → ∀ t, t < m → (p.getD j []).getD t 0 < 256 :=
    fun j hj t ht => hpbytes _ (getD_mem_poly (by rw [hp]; exact hj)) _
      (getD_mem_poly (by rw [hpeach _ (getD_mem_poly (by rw [hp]; exact hj))]; exact ht))
  -- the Recoder produced by `new`
  have hnew : Recoder.new FP.flatten (k + m) k = some (.ok
      ⟨FP.flatMap (fun c => c.take k), ⟨FP.flatMap (fun c => c.drop k), n, m⟩,
       n, k + m, k⟩) := by
    have h := recoderNew_ok FP.flatten (k + m) k (by omega) (by omega)
      (by rw [hflen]; exact Nat.le_mul_of_pos_left _ hn)
    rw [h, hchunks, hdiv, show k + m - k = m by omega]
  -- the coding-vector entries stored by the Recoder
  have hVgetD : ∀ i, i < n → ∀ j, j < k →
      (FP.flatMap (fun c => c.take k)).getD (i * k + j) 0 = (FP.getD i []).getD j 0 := by
    intro i hi j hj
    show (List.flatten (FP.map (fun c => c.take k))).getD (i * k + j) 0 = _
    rw [flatten_const_getD k (FP.map (fun c => c.take k)) i j (by rw [List.length_map, hFPlen]; exact hi)
      hj (fun c hc => by
        obtain ⟨x, hx, rfl⟩ := List.mem_map.mp hc
        rw [List.length_take, hFPeach x hx]
        omega)]
    rw [getD_map_list _ _ _ (by rw [hFPlen]; exact hi)]
    exact getD_take _ _ _ hj (by rw [hFPlen2 i hi]; omega)
  -- the payload pieces held by the inner Encoder, chunked back
  have hDchunks : chunksExact m (FP.flatMap (fun c => c.drop k))
      = FP.map (fun c => c.drop k) := by
    show chunksExact m (List.flatten (FP.map (fun c => c.drop k))) = _
    exact chunksExact_flatten _ m hm (fun c hc => by
      obtain ⟨x, hx, rfl⟩ := List.mem_map.mp hc
      rw [List.length_drop, hFPeach x hx]
      omega)
  -- the payload computed by the inner Encoder
  have hcode : Encoder.code_with_coding_vector
      ⟨FP.flatMap (fun c => c.drop k), n, m⟩ r (List.replicate (k + m - k) 0)
      = .ok (((FP.map (fun c => c.drop k)).zip r).foldl
          (fun a pr => gf256_mul_vec_by_scalar_then_add_into_vec a pr.1 pr.2)
          (List.replicate m 0)) := by
    unfold Encoder.code_with_coding_vector
    dsimp only
    rw [if_neg (show ¬(r.length ≠ n) from fun hc => hc hr)]
    rw [if_neg (show ¬((List.replicate (k + m - k) (0 : Nat)).length ≠ m) from fun hc =>
      hc (by rw [List.length_replicate]; omega))]
    rw [hDchunks, List.length_replicate, show k + m - k = m by omega]
  -- value of the computed coding vector
  have hcv : ∀ j, j < k →
      ((List.range k).map (fun coeff_idx =>
        ((List.range r.length).zip r).foldl
          (fun acc pr => acc ^^^ mulConst pr.2
            ((FP.flatMap (fun c => c.take k)).getD (pr.1 * k + coeff_idx) 0)) 0)).getD j 0
      = gfSum ((List.range n).map fun i =>
          mulConst (r.getD i 0) ((FP.getD i []).getD j 0)) := by
    intro j hj
    rw [getD_of_lt _ _ _ (by rw [List.length_map, List.length_range]; exact hj)]
    simp only [List.getElem_map, List.getElem_range]
    rw [foldl_xor_gfSum, Nat.zero_xor,
      map_zip_range r (fun i x => mulConst x
        ((FP.flatMap (fun c => c.take k)).getD (i * k + j) 0))]
    rw [hr]
    refine congrArg gfSum (List.map_congr_left fun i hi => ?_)
    have hin : i < n := List.mem_range.mp hi
    rw [hVgetD i hin j hj, mulConst_comm]
  -- value of the payload
  have hPLlen : (((FP.map (fun c => c.drop k)).zip r).foldl
      (fun a pr => gf256_mul_vec_by_scalar_then_add_into_vec a pr.1 pr.2)
      (List.replicate m 0)).length = m := by
    rw [code_fold_length _ _ _ (fun q hq => by
      obtain ⟨c, hc, rfl⟩ := List.mem_map.mp hq
      rw [List.length_drop, hFPeach c hc, List.length_replicate]
      omega)]
    exact List.length_replicate ..
  have hPL : ∀ t, t < m → (((FP.map (fun c => c.drop k)).zip r).foldl
      (fun a pr => gf256_mul_vec_by_scalar_then_add_into_vec a pr.1 pr.2)
      (List.replicate m 0)).getD t 0
      = gfSum ((List.range n).map fun i =>
          mulConst (r.getD i 0) ((FP.getD i []).getD (k + t) 0)) := by
    intro t ht
    rw [code_fold_getD (FP.map (fun c => c.drop k)) r (List.replicate m 0)
      (fun q hq => by
        obtain ⟨c, hc, rfl⟩ := List.mem_map.mp hq
        rw [List.length_drop, hFPeach c hc, List.length_replicate]
        omega)
      (fun q hq x hx => by
        obtain ⟨c, hc, rfl⟩ := List.mem_map.mp hq
        exact hFPbytes c hc x (List.mem_of_mem_drop hx))
      t (by rw [List.length_replicate]; exact ht)]
    rw [getD_replicate m t 0 ht, Nat.zero_xor]
    have hmapeq : ((FP.map (fun c => c.drop k)).zip r).map
        (fun pr => mulConst (pr.1.getD t 0) pr.2)
        = (List.range n).map (fun i =>
            mulConst ((FP.getD i []).getD (k + t) 0) (r.getD i 0)) := by
      refine List.ext_getElem (by simp [hFPlen, hr]) ?_
      intro i h1 h2
      have hin : i < n := by simpa using h2
      simp only [List.getElem_map, List.getElem_zip, List.getElem_range]
      congr 1
      · rw [getD_drop, ← getD_of_lt FP [] i (by rw [hFPlen]; exact hin)]
      · exact (getD_of_lt r 0 i (by rw [hr]; exact hin)).symm
    rw [hmapeq]
    exact congrArg gfSum (List.map_congr_left fun i hi => mulConst_comm _ _)
  -- the algebra: pushing the recoding vector through the validity hypothesis
  have halg : ∀ t, t < m →
      gfSum ((List.range n).map fun i =>
        mulConst (r.getD i 0) ((FP.getD i []).getD (k + t) 0))
      = gfSum ((List.range k).map fun j =>
          mulConst (gfSum ((List.range n).map fun i =>
            mulConst (r.getD i 0) ((FP.getD i []).getD j 0))) ((p.getD j []).getD t 0)) := by
    intro t ht
    have h1 : (List.range n).map (fun i =>
        mulConst (r.getD i 0) ((FP.getD i []).getD (k + t) 0))
        = (List.range n).map (fun i => gfSum ((List.range k).map fun j =>
            mulConst (mulConst (r.getD i 0) ((FP.getD i []).getD j 0))
              ((p.getD j []).getD t 0))) := by
      refine List.map_congr_left fun i hi => ?_
      have hin : i < n := List.mem_range.mp hi
      rw [hvalid i hin t ht]
      rw [mulConst_gfSum (hrb i hin) _ (fun x hx => by
        obtain ⟨j, hj, rfl⟩ := List.mem_map.mp hx
        exact mulConst_lt (hVb i hin j (by have := List.mem_range.mp hj; omega))
          (hpb j (List.mem_range.mp hj) t ht))]
      rw [List.map_map]
      refine congrArg gfSum (List.map_congr_left fun j hj => ?_)
      have hjk : j < k := List.mem_range.mp hj
      exact (mulConst_assoc (hrb i hin) (hVb i hin j (by omega)) (hpb j hjk t ht)).symm
    rw [h1, gfSum_exchange n k (fun i j =>
      mulConst (mulConst (r.getD i 0) ((FP.getD i []).getD j 0)) ((p.getD j []).getD t 0))]
    refine congrArg gfSum (List.map_congr_left fun j hj => ?_)
    have hjk : j < k := List.mem_range.mp hj
    rw [gfSum_mulConst (hpb j hjk t ht) _ (fun x hx => by
      obtain ⟨i, hi, rfl⟩ := List.mem_map.mp hx
      exact mulConst_lt (hrb i (List.mem_range.mp hi)) (hVb i (List.mem_range.mp hi) j (by omega)))]
    rw [List.map_map]
    rfl
  -- assemble
  refine ⟨((List.range k).map (fun coeff_idx =>
      ((List.range r.length).zip r).foldl
        (fun acc pr => acc ^^^ mulConst pr.2
          ((FP.flatMap (fun c => c.take k)).getD (pr.1 * k + coeff_idx) 0)) 0))
    ++ (((FP.map (fun c => c.drop k)).zip r).foldl
        (fun a pr => gf256_mul_vec_by_scalar_then_add_into_vec a pr.1 pr.2)
        (List.replicate m 0)), hnew, ?_, ?_, ?_, ?_⟩
  · unfold Recoder.recode_with_buf
    dsimp only
    rw [if_neg (show ¬(buf.length ≠ k + m) from fun hc => hc hbuf)]
    rw [hcode]
  · rw [List.length_append, List.length_map, List.length_range, hPLlen]
  · intro j hj
    rw [getD_append_left _ _ _ (by rw [List.length_map, List.length_range]; exact hj)]
    exact hcv j hj
  · intro t ht
    have hklen : ((List.range k).map (fun coeff_idx =>
        ((List.range r.length).zip r).foldl
          (fun acc pr => acc ^^^ mulConst pr.2
            ((FP.flatMap (fun c => c.take k)).getD (pr.1 * k + coeff_idx) 0)) 0)).length
        = k := by rw [List.length_map, List.length_range]
    rw [show k + t = ((List.range k).map (fun coeff_idx =>
        ((List.range r.length).zip r).foldl
          (fun acc pr => acc ^^^ mulConst pr.2
            ((FP.flatMap (fun c => c.take k)).getD (pr.1 * k + coeff_idx) 0)) 0)).length + t
      by rw [hklen]]
    rw [getD_append_right_len, hPL t ht, halg t ht]
    refine congrArg gfSum (List.map_congr_left fun j hj => ?_)
    have hjk : j < k := List.mem_range.mp hj
    rw [getD_append_left _ _ _ (by rw [hklen]; exact hjk), hcv j hjk]

/-- Witness for C4 at n = k = m = 1: one full piece [1, 7], source piece [7],
recoding vector [1]. -/
theorem C4_recoded_piece_is_valid_combination_witness :
    ∃ out,
      Recoder.new ([[1, 7]] : List (List Nat)).flatten (1 + 1) 1 = some (.ok
        ⟨[[1, 7]].flatMap (fun c => c.take 1), ⟨[[1, 7]].flatMap (fun c => c.drop 1), 1, 1⟩,
         1, 1 + 1, 1⟩) ∧
      (⟨[[1, 7]].flatMap (fun c => c.take 1), ⟨[[1, 7]].flatMap (fun c => c.drop 1), 1, 1⟩,
         1, 1 + 1, 1⟩ : Recoder).recode_with_buf [1] ([0, 0] : List Nat).length
        = some (.ok out) ∧
      out.length = 1 + 1 ∧
      (∀ j, j < 1 → out.getD j 0 = gfSum ((List.range 1).map fun i =>
        mulConst (([1] : List Nat).getD i 0) ((([[1, 7]] : List (List Nat)).getD i []).getD j 0))) ∧
      (∀ t, t < 1 → out.getD (1 + t) 0 = gfSum ((List.range 1).map fun j =>
        mulConst (out.getD j 0) ((([[7]] : List (List Nat)).getD j []).getD t 0))) :=
  C4_recoded_piece_is_valid_combination 1 1 1 [[1, 7]] [[7]] [1] [0, 0]
    (by decide) (by decide) (by decide) (by decide) (by decide) (by decide)
    (by decide) (by decide) (by decide) (by decide) (by decide) (by decide) (by decide)

end Rlnc
